import Mathlib

/-!
Orbit engine: build pipeline, identifier generation and API admission.

A shallow embedding of the parts of `engine/store_deployments.go`,
`engine/api_routes.go` and `engine/api_git.go` that the properties below are
about. Go strings are Lean strings, Go errors are `Option String` (`none` is
`nil`), and every interaction with something outside the function at hand
(the random source, the clock, `git`, the Docker build, the consensus layer)
is an explicit input.
-/

namespace Orbit

/-! ## Go values -/

/-- A Go `error`: `none` is `nil`, `some msg` is an error whose text is `msg`. -/
abbrev GoError := Option String

/-! ## encoding/hex -/

/-- The table `hextable` of `encoding/hex`. -/
def hextable : List Char :=
  ['0', '1', '2', '3', '4', '5', '6', '7', '8', '9', 'a', 'b', 'c', 'd', 'e', 'f']

/-- Two characters for one byte `v`: `hextable[v>>4]`, `hextable[v&0x0f]`. -/
def hexByte (v : Nat) : List Char :=
  [hextable.getD ((v % 256) / 16) '0', hextable.getD ((v % 256) % 16) '0']

/-- Go `hex.EncodeToString`. -/
def EncodeToString (b : List Nat) : String :=
  String.mk (b.flatMap hexByte)

/-! ## Data model (`store_deployments.go`) -/

/-- The struct `Deployment`; the map `BuildLogs` is an association list. -/
structure Deployment where
  ID : String := ""
  Name : String := ""
  Repository : String := ""
  Branch : String := ""
  Path : String := ""
  BuildLogs : List (String × List String) := []
  NamespaceID : String := ""
deriving DecidableEq, Repr

/-- The slice type `Deployments`. -/
abbrev Deployments := List Deployment

/-! ## `Deployments.GenerateID` -/

/-- The buffer `b` after `b := make([]byte, 8); rand.Read(b)`: eight bytes, the
ones the random source delivered and zero where it delivered none. -/
def readRandom (draw : List Nat) : List Nat :=
  (List.range 8).map fun i => draw.getD i 0 % 256

/-- The inner loop of `GenerateID`: does some deployment carry this `id`? -/
def idInUse (d : Deployments) (id : String) : Bool :=
  d.any fun deployment => deployment.ID == id

/-- The method `Deployments.GenerateID`, run against the successive results of
`rand.Read`. Each colliding draw sends the `search` loop round again; `none`
means the given draws were all used up and the loop is still searching. -/
def GenerateID (d : Deployments) : List (List Nat) → Option String
  | [] => none
  | draw :: rest =>
    let id := EncodeToString (readRandom draw)
    if idInUse d id then GenerateID d rest else some id

/-! ## fmt, strings, path/filepath -/

/-- The decimal digit `d` as a character. -/
def digitChar (d : Nat) : Char := Char.ofNat (48 + d)

/-- Decimal digits of `n`, most significant first, in front of `acc`; `fuel`
bounds the number of digits. -/
def decimalAux : Nat → Nat → List Char → List Char
  | 0, _, acc => acc
  | fuel + 1, n, acc =>
    if n < 10 then digitChar n :: acc
    else decimalAux fuel (n / 10) (digitChar (n % 10) :: acc)

/-- What `%d` prints for a natural number. -/
def formatNat (n : Nat) : List Char := decimalAux (n + 1) n []

/-- Go `fmt.Sprintf("%d", n)` for a signed integer. -/
def formatInt (n : Int) : String :=
  String.mk (if n < 0 then '-' :: formatNat n.natAbs else formatNat n.toNat)

/-- Go `strings.Split(s, sep)` for a separator of one character, on characters. -/
def splitOn (sep : Char) : List Char → List (List Char)
  | [] => [[]]
  | c :: cs =>
    if c = sep then [] :: splitOn sep cs
    else
      match splitOn sep cs with
      | [] => [[c]]
      | w :: ws => (c :: w) :: ws

/-- Go `strings.Split(s, "/")`. -/
def Split (s : String) : List String :=
  (splitOn '/' s.data).map String.mk

/-- Go `strings.Join(elems, "/")`, on characters. -/
def joinSlash : List (List Char) → List Char
  | [] => []
  | [x] => x
  | x :: y :: rest => x ++ '/' :: joinSlash (y :: rest)

/-- Go `strings.TrimPrefix`, on characters. -/
def trimPrefixChars (s pre : List Char) : List Char :=
  if pre.isPrefixOf s then s.drop pre.length else s

/-- Go `strings.TrimPrefix(s, prefix)`. -/
def TrimPrefix (s pre : String) : String :=
  String.mk (trimPrefixChars s.data pre.data)

/-- Go `unicode.IsSpace`. -/
def isSpace (c : Char) : Bool :=
  let n := c.toNat
  n = 9 || n = 10 || n = 11 || n = 12 || n = 13 || n = 32 || n = 0x85 || n = 0xA0 ||
  n = 0x1680 || (0x2000 ≤ n && n ≤ 0x200a) || n = 0x2028 || n = 0x2029 ||
  n = 0x202f || n = 0x205f || n = 0x3000

/-- Go `strings.TrimSpace`. -/
def TrimSpace (s : String) : String :=
  String.mk ((s.data.dropWhile isSpace).reverse.dropWhile isSpace).reverse

/-- One path element met by `filepath.Clean`, against the elements kept so far
(`kept`, innermost first). An empty element and `.` are dropped; `..` removes
the innermost kept element when that is a real one, is itself kept when the
path is not rooted and nothing can be removed, and is dropped at the root; any
other element is kept. -/
def cleanStep (rooted : Bool) (kept : List (List Char)) (elem : List Char) :
    List (List Char) :=
  if elem = [] ∨ elem = ['.'] then kept
  else if elem = ['.', '.'] then
    match kept with
    | [] => if rooted then [] else [['.', '.']]
    | top :: below =>
      if top = ['.', '.'] then (if rooted then kept else ['.', '.'] :: kept)
      else below
  else elem :: kept

/-- Go `filepath.Clean` on a Unix path, on characters: the elements between
slashes are processed left to right by `cleanStep`, the kept ones are joined by
single slashes behind the root slash (if the path has one), and an empty result
is `.`. -/
def cleanChars (path : List Char) : List Char :=
  let rooted := path.head? = some '/'
  let kept := (splitOn '/' path).foldl (cleanStep rooted) []
  let out := (if rooted then ['/'] else []) ++ joinSlash kept.reverse
  if out = [] then ['.'] else out

/-- Go `filepath.Clean`. -/
def Clean (path : String) : String := String.mk (cleanChars path.data)

/-- Go `filepath.Join` on Unix: leading empty elements are skipped, the rest is
joined by slashes and cleaned; no non-empty element gives the empty string. -/
def joinChars : List (List Char) → List Char
  | [] => []
  | e :: rest => if e = [] then joinChars rest else cleanChars (joinSlash (e :: rest))

/-- Go `filepath.Join(elem...)`. -/
def Join (elem : List String) : String :=
  String.mk (joinChars (elem.map String.data))

/-! ## The store as `store_deployments.go` uses it -/

/-- Modelled from the spec: the struct `Repository`, declared outside the
sources at hand; "each has an ID, a human name, and an optional namespace
reference", which are the three fields the code reads. -/
structure Repository where
  ID : String := ""
  Name : String := ""
  NamespaceID : String := ""
deriving DecidableEq, Repr

/-- Modelled from the spec: the struct `Namespace`, declared outside the sources
at hand; the code reads its `ID`. -/
structure Namespace where
  ID : String := ""
  Name : String := ""
deriving DecidableEq, Repr

/-- Modelled from the spec: the struct `User`, declared outside the sources at
hand, with the fields that `handleListUsers` reads. -/
structure User where
  ID : String := ""
  Name : String := ""
  Username : String := ""
  Email : String := ""
deriving DecidableEq, Repr

/-- The struct `command`: an operation tag and one payload field per kind. -/
structure command where
  Op : String := ""
  User : User := {}
  Deployment : Deployment := {}
deriving DecidableEq, Repr

/-- Modelled from the spec: the constant `opAppendBuildLog`, declared outside
the sources at hand; the operation is named `Deployment.AppendBuildLog`. -/
def opAppendBuildLog : String := "Deployment.AppendBuildLog"

/-- The part of the replicated state that this code reads. -/
structure State where
  Repositories : List Repository := []

/-- The store seen from its callers. `submitted` lists the commands handed to
`command.Apply` so far, oldest first; `outcome` is what the consensus layer
answers to a command, given the ones handed over before it; `volumeData` is
`OrbitSystemVolume().Paths().Data`, or `none` when there is no system volume. -/
structure Store where
  state : State := {}
  volumeData : Option String := none
  outcome : List command → command → GoError := fun _ _ => none
  submitted : List command := []

/-- The call `cmd.Apply(s)`: the command is handed to the store, which answers
with an error or `nil`. -/
def command.Apply (cmd : command) (s : Store) : GoError × Store :=
  (s.outcome s.submitted cmd, { s with submitted := s.submitted ++ [cmd] })

/-- The method `Store.AppendBuildLog`. -/
def AppendBuildLog (s : Store) (deploymentID key : String) (lines : List String) :
    GoError × Store :=
  if lines.length = 0 then (none, s)
  else
    let logs : List (String × List String) := [(key, lines)]
    let cmd : command :=
      { Op := opAppendBuildLog, Deployment := { ID := deploymentID, BuildLogs := logs } }
    match cmd.Apply s with
    | (some err, s') => (some err, s')
    | (none, s') => (none, s')

/-! ## `Engine.BuildDeployment` -/

/-- What one round of the `select` in `BuildDeployment` receives. -/
inductive BuildEvent where
  /-- `outputCh` delivers a line. -/
  | line (text : String)
  /-- `outputCh` is found closed. -/
  | closed
  /-- `errorCh` delivers a value. -/
  | failed (err : GoError)
  /-- `ticker.C` fires. -/
  | tick
deriving DecidableEq, Repr

/-- Everything outside the engine that one call of `BuildDeployment` meets. -/
structure BuildWorld where
  /-- `ioutil.TempDir("", "")`. -/
  TempDir : Except String String
  /-- `git clone path tmp`. -/
  gitClone : String → String → GoError
  /-- `git -C tmp checkout branch`. -/
  gitCheckout : String → String → GoError
  /-- `git -C tmp rev-parse HEAD`: its output, or the error. -/
  gitRevParse : String → Except String String
  /-- `docker.EnsureDockerfile(src)`. -/
  EnsureDockerfile : String → GoError
  /-- `time.Now().UnixNano()` when the key is generated. -/
  now : Int
  /-- `docker.Build(src, tag)`: what the two channels and the ticker deliver, in
  the order in which the `select` receives it. -/
  Build : String → String → List BuildEvent

/-- The closure `flushBuffer`: the error, the line buffer and the store after it. -/
def flushBuffer (dID key : String) (lineBuf : List String) (s : Store) :
    GoError × List String × Store :=
  match AppendBuildLog s dID key lineBuf with
  | (some err, s') => (some err, lineBuf, s')
  | (none, s') => (none, [], s')

/-- How the loop labelled `loop` ends. -/
inductive LoopEnd where
  /-- The statement `break loop` was reached. -/
  | broke (lineBuf : List String) (s : Store)
  /-- A `return` inside the loop was reached. -/
  | returned (key : String) (err : GoError) (s : Store)
  /-- The events ran out: the `select` waits. -/
  | waiting (lineBuf : List String) (s : Store)

/-- The loop labelled `loop`, over the events its `select` receives. -/
def selectLoop (dID key : String) : List BuildEvent → List String → Store → LoopEnd
  | [], lineBuf, s => .waiting lineBuf s
  | .line text :: evs, lineBuf, s => selectLoop dID key evs (lineBuf ++ [text]) s
  | .closed :: _, lineBuf, s => .broke lineBuf s
  | .failed err :: _, _, s => .returned key err s
  | .tick :: evs, lineBuf, s =>
    match flushBuffer dID key lineBuf s with
    | (some err, _, s') => .returned key (some err) s'
    | (none, lineBuf', s') => selectLoop dID key evs lineBuf' s'

/-- The key of the build log: `filepath.Join(hash, now, d.Path)` with `now` the
clock reading printed by `%d`. -/
def buildKey (hash : String) (now : Int) (path : String) : String :=
  Join [hash, formatInt now, path]

/-- The part of `BuildDeployment` from `var lineBuf []string` to the end. The
result is `none` while the call has not returned. -/
def runBuild (dID key : String) (events : List BuildEvent) (s : Store) :
    Option (String × GoError) × Store :=
  match selectLoop dID key events [] s with
  | .returned k err s' => (some (k, err), s')
  | .waiting _ s' => (none, s')
  | .broke lineBuf s' =>
    match flushBuffer dID key lineBuf s' with
    | (some err, _, s'') => (some (key, some err), s'')
    | (none, _, s'') => (some (key, none), s'')

/-- The part of `BuildDeployment` before `var lineBuf []string`, together with
the start of the build: the error of the first step that fails, or else the key
of the build log and what `docker.Build(src, tag)` delivers. -/
def buildSetup (w : BuildWorld) (s : Store) (d : Deployment) :
    Except String (String × List BuildEvent) :=
  match s.state.Repositories.find? (fun r => r.ID == d.Repository) with
  | none => .error "that repository does not exist"
  | some repo =>
    match s.volumeData with
    | none => .error "could not find the orbit system volume"
    | some data =>
      let path := Join [data, "repositories", repo.ID]
      match w.TempDir with
      | .error err => .error ("could not create temporary directory: " ++ err)
      | .ok tmp =>
        match w.gitClone path tmp with
        | some err => .error ("could not run git clone command: " ++ err)
        | none =>
          match (if d.Branch ≠ "" then w.gitCheckout tmp d.Branch else none) with
          | some err => .error err
          | none =>
            match w.gitRevParse tmp with
            | .error err => .error err
            | .ok output =>
              let hash := TrimSpace output
              let src := Join [tmp, d.Path]
              match w.EnsureDockerfile src with
              | some err => .error ("could not ensure dockerfile: " ++ err)
              | none =>
                let key := buildKey hash w.now d.Path
                let tag := "127.0.0.1:6510/" ++ d.ID
                .ok (key, w.Build src tag)

/-- The method `Engine.BuildDeployment`: the pair it returns (`none` while it
has not returned) and the store afterwards. Every `return` before the key is
generated returns the empty string with the error. -/
def BuildDeployment (w : BuildWorld) (s : Store) (d : Deployment) :
    Option (String × GoError) × Store :=
  match buildSetup w s d with
  | .error err => (some ("", some err), s)
  | .ok (key, events) => runBuild d.ID key events s

/-- The lines that `outputCh` delivers among the given events, in order. -/
def linesOf : List BuildEvent → List String
  | [] => []
  | .line text :: evs => text :: linesOf evs
  | _ :: evs => linesOf evs

/-- The log lines carried by a list of commands, in order. -/
def loggedLines (cmds : List command) : List String :=
  cmds.flatMap fun c => c.Deployment.BuildLogs.flatMap Prod.snd

/-- The command that `AppendBuildLog` builds for a batch of lines. -/
def appendCommand (dID key : String) (batch : List String) : command :=
  { Op := opAppendBuildLog, Deployment := { ID := dID, BuildLogs := [(key, batch)] } }

/-- A world for examples: every step succeeds, the clock reads `now`, `git
rev-parse` prints `abc123` and a newline, and the build delivers `events`. -/
def calmWorld (now : Int) (events : List BuildEvent) : BuildWorld :=
  { TempDir := .ok "/tmp/b1"
    gitClone := fun _ _ => none
    gitCheckout := fun _ _ => none
    gitRevParse := fun _ => .ok "abc123\n"
    EnsureDockerfile := fun _ => none
    now := now
    Build := fun _ _ => events }

/-- A store for examples: one repository `r1`, a system volume, and a consensus
layer that accepts every command. -/
def calmStore : Store :=
  { state := { Repositories := [{ ID := "r1", Name := "app", NamespaceID := "team" }] }
    volumeData := some "/var/orbit" }

/-- A deployment for examples, built from repository `r1`. -/
def webDeployment : Deployment :=
  { ID := "d1", Name := "web", Repository := "r1", Branch := "main", Path := "svc" }

/-- The consensus layer accepts every command handed to this store. -/
def Accepting (s : Store) : Prop := ∀ history cmd, s.outcome history cmd = none

/-- The events are output lines and timer ticks only. -/
def LinesAndTicks (evs : List BuildEvent) : Prop :=
  ∀ e ∈ evs, e = BuildEvent.tick ∨ ∃ text, e = BuildEvent.line text

/-- The commands one flush of the buffer hands to the store. -/
def flushed (dID key : String) (lineBuf : List String) : List command :=
  if lineBuf = [] then [] else [appendCommand dID key lineBuf]

/-- The store after more commands have been handed to it. -/
def Store.after (s : Store) (cmds : List command) : Store :=
  { s with submitted := s.submitted ++ cmds }

/-- A world for examples in which `git clone` fails. -/
def cloneFailWorld : BuildWorld :=
  { calmWorld 17 [] with gitClone := fun _ _ => some "exit status 128" }

/-! ## The API server (`api_routes.go`): setup and bootstrap -/

/-- Modelled from the spec: the type `Status` of `engine.Status`, declared
outside the sources at hand: an ordered integer type, compared with `>=`, `!=`
and `==`. Its constants `Ready` and `Running` are parameters below. -/
abbrev Status := Int

/-- An HTTP response: the status code and the text written. -/
structure Response where
  code : Nat
  text : String
deriving DecidableEq, Repr

/-- The engine as the setup and bootstrap handlers see it. `bootstrapCalls`
records, for each call of `store.Bootstrap()` so far, the engine status at the
time of the call, oldest first. -/
structure Node where
  Status : Orbit.Status
  AdvertiseAddr : Option String := none
  bootstrapCalls : List Orbit.Status := []
deriving DecidableEq, Repr

/-- The status code of a response for which the handler writes `code` after
`c.Bind(&body)`: when the binding fails (`bindErr`), gin has already sent 400
and aborted, the handler goes on all the same, and a status written later does
not replace the one sent. -/
def afterBind (bindErr : GoError) (code : Nat) : Nat :=
  match bindErr with
  | none => code
  | some _ => 400

/-- The handler returned by `handleSetup`, for a request whose body carries
`rawIP`; `bindErr` is the error of `c.Bind(&body)`, `parses` tells whether
`net.ParseIP` accepts the address and `openErr` is the error that
`store.Open()` reports before the store has started (`none` when the store
starts). -/
def handleSetup (Ready : Status) (n : Node) (bindErr : GoError) (rawIP : String)
    (parses : Bool) (openErr : GoError) : Node × Response :=
  if n.Status ≥ Ready then
    (n, ⟨afterBind bindErr 400, "The engine has already been setup."⟩)
  else if rawIP = "" then
    (n, ⟨afterBind bindErr 400, "You must provide an IP address."⟩)
  else if parses = false then
    (n, ⟨afterBind bindErr 400, "The provided IP address is not valid."⟩)
  else
    let n1 := { n with AdvertiseAddr := some rawIP }
    match openErr with
    | some _ =>
      (n1, ⟨afterBind bindErr 500, "Could not open the store. Are you sure that the IP address you have provided exists on the node?"⟩)
    | none =>
      ({ n1 with Status := Ready },
        ⟨afterBind bindErr 200, "The store has been opened successfully."⟩)

/-- The handler returned by `handleBootstrap`; `bootErr` is what
`store.Bootstrap()` returns if it is called. -/
def handleBootstrap (Ready Running : Status) (n : Node) (bootErr : GoError) :
    Node × Response :=
  if n.Status ≠ Ready then
    let msg :=
      if n.Status = Running then "The store has already been bootstrapped."
      else "The store is not ready to be bootstrapped."
    (n, ⟨400, msg⟩)
  else
    let n1 := { n with bootstrapCalls := n.bootstrapCalls ++ [n.Status] }
    match bootErr with
    | some err => (n1, ⟨500, err ++ "."⟩)
    | none =>
      ({ n1 with Status := Running }, ⟨200, "The server has been successfully bootstrapped."⟩)

/-- A request to `POST /setup` or `POST /bootstrap`, with what the outside
answers while it is handled. -/
inductive NodeRequest where
  | setup (bindErr : GoError) (rawIP : String) (parses : Bool) (openErr : GoError)
  | bootstrap (bootErr : GoError)
deriving DecidableEq, Repr

/-- One request handled by the node. -/
def handleNodeRequest (Ready Running : Status) (n : Node) : NodeRequest → Node × Response
  | .setup bindErr rawIP parses openErr => handleSetup Ready n bindErr rawIP parses openErr
  | .bootstrap bootErr => handleBootstrap Ready Running n bootErr

/-- A sequence of requests handled one after the other: the node afterwards and
the responses in order. -/
def serveNode (Ready Running : Status) : Node → List NodeRequest → Node × List Response
  | n, [] => (n, [])
  | n, r :: rs =>
    let step := handleNodeRequest Ready Running n r
    let later := serveNode Ready Running step.1 rs
    (later.1, step.2 :: later.2)

/-- What a node whose status is `Running` answers to a request. -/
def alreadyRunningResponse : NodeRequest → Response
  | .setup _ _ _ _ => ⟨400, "The engine has already been setup."⟩
  | .bootstrap _ => ⟨400, "The store has already been bootstrapped."⟩

/-! ## The API server: the leader-only routes -/

/-- The states of `raft.RaftState`. -/
inductive RaftState where
  | Follower
  | Candidate
  | Leader
  | Shutdown
deriving DecidableEq, Repr

/-- The part of `gin.Context` that the handlers use, with the store they act
on. `index` is the position in the handler chain, `written` tells whether the
response has been started, and `entered` records the route handlers that have
run. -/
structure Context where
  index : Int := -1
  code : Nat := 200
  text : String := ""
  written : Bool := false
  store : Store := {}
  entered : List String := []

/-- The constant `abortIndex` of gin. -/
def abortIndex : Int := 63

/-- The method `c.String(code, text)` of gin: the status code counts only if
the response has not been started. -/
def Context.String (c : Context) (code : Nat) (text : String) : Context :=
  if c.written then { c with text := c.text ++ text }
  else { c with code := code, text := c.text ++ text, written := true }

/-- The method `c.Abort()` of gin. -/
def Context.Abort (c : Context) : Context := { c with index := abortIndex }

/-- The method `c.AbortWithStatus(code)` of gin. -/
def Context.AbortWithStatus (c : Context) (code : Nat) : Context :=
  if c.written then c.Abort else { c with code := code, written := true }.Abort

/-- The statement `c.index++` of gin's `Context.Next`. -/
def Context.incr (c : Context) : Context := { c with index := c.index + 1 }

/-- A `gin.HandlerFunc`; its first argument is what `c.Next()` does. -/
abbrev HandlerFunc := (Context → Context) → Context → Context

/-- The loop of gin's `Context.Next` after `c.index++`: while `c.index` is
below the number of handlers, run handler `c.index` and increment. A handler
that calls `c.Next()` enters the loop again one position further. `fuel`
bounds the number of handler calls. -/
def runHandlers : Nat → List HandlerFunc → Context → Context
  | 0, _, c => c
  | fuel + 1, handlers, c =>
    if 0 ≤ c.index ∧ c.index < handlers.length then
      match handlers.get? c.index.toNat with
      | none => c
      | some h =>
        let c1 := h (fun c' => runHandlers fuel handlers c'.incr) c
        runHandlers fuel handlers c1.incr
    else c

/-- The middleware `simpleLogger`. -/
def simpleLogger : HandlerFunc := fun next c => next c

/-- The middleware of the group of routes "that require to be the raft leader";
`role` is `s.engine.Store.raft.State()`. -/
def requireLeader (role : RaftState) : HandlerFunc := fun next c =>
  if role ≠ RaftState.Leader then
    (c.String 500 "This node is not the leader of the cluster, and leader forwarding is not yet implemented.").Abort
  else next c

/-- The errors of `Users.Generate` that `handleSignup` tells apart. -/
inductive GenerateError where
  | ErrEmailTaken
  | ErrUsernameTaken
  | ErrMissingFields
  | other (msg : String)
deriving DecidableEq, Repr

/-- The call `c.Bind(&body)` of gin, its returned error dropped as the handlers
drop it: when the binding fails, `AbortWithError(400, err)` sends status 400
and aborts the chain. -/
def Context.Bind (c : Context) (bindErr : GoError) : Context :=
  match bindErr with
  | none => c
  | some _ => c.AbortWithStatus 400

/-- The handler returned by `handleSignup`; `bindErr` is the error of
`c.Bind(&body)` and `generated` is what `store.state.Users.Generate` returns
for the body as bound. -/
def handleSignup (bindErr : GoError) (generated : Except GenerateError User) :
    HandlerFunc := fun _ c0 =>
  let c := { c0 with entered := c0.entered ++ ["handleSignup"] }.Bind bindErr
  match generated with
  | .error .ErrEmailTaken => c.String 409 "Sorry, that email address is already taken."
  | .error .ErrUsernameTaken => c.String 409 "Sorry, that username is already taken."
  | .error .ErrMissingFields => c.String 400 "You didn't supply all of the required fields."
  | .error (.other _) => c.AbortWithStatus 400
  | .ok newUser =>
    let cmd : command := { Op := "User.New", User := newUser }
    match cmd.Apply c.store with
    | (some _, s') =>
      { c with store := s' }.String 500 "Could not create the new user. Ensure that all of the manager nodes are connected correctly."
    | (none, s') => { c with store := s' }.String 201 "New user created."

/-- The handler returned by `handleRemoveUser`; `id` is the route parameter and
`foundAt` the index that `store.state.Users.FindByID(id)` returns. -/
def handleRemoveUser (id : String) (foundAt : Int) : HandlerFunc := fun _ c0 =>
  let c := { c0 with entered := c0.entered ++ ["handleRemoveUser"] }
  if foundAt = -1 then c.String 404 "A user with that ID does not exist."
  else
    let cmd : command := { Op := "User.Remove", User := { ID := id } }
    match cmd.Apply c.store with
    | (some _, s') => { c with store := s' }.String 500 "Could not remove that user."
    | (none, s') => { c with store := s' }.String 200 "The user has been removed."

/-- A request to one of the two leader-only routes, with what the user list
answers while it is handled. -/
inductive LeaderRoute where
  | signup (bindErr : GoError) (generated : Except GenerateError User)
  | removeUser (id : String) (foundAt : Int)

/-- The route handler registered for the request. -/
def LeaderRoute.handler : LeaderRoute → HandlerFunc
  | .signup bindErr generated => handleSignup bindErr generated
  | .removeUser id foundAt => handleRemoveUser id foundAt

/-- The handler chain of `POST /signup` and `DELETE /user/:id` as `handlers`
registers it: the logger of the router, the leader check of the group, the
route handler. -/
def leaderChain (role : RaftState) (route : LeaderRoute) : List HandlerFunc :=
  [simpleLogger, requireLeader role, route.handler]

/-- One request served by gin on a leader-only route: the context is reset
(`index = -1`) and `c.Next()` is called. -/
def serveLeaderRoute (fuel : Nat) (role : RaftState) (route : LeaderRoute) (s : Store) :
    Context :=
  let c : Context := { store := s, index := -1 }
  runHandlers fuel (leaderChain role route) c.incr

/-- The name of the route handler registered for the request. -/
def LeaderRoute.name : LeaderRoute → String
  | .signup _ _ => "handleSignup"
  | .removeUser _ _ => "handleRemoveUser"

/-- The status code that `handleSignup` answers to an error of `Users.Generate`. -/
def signupErrorCode : GenerateError → Nat
  | .ErrEmailTaken => 409
  | .ErrUsernameTaken => 409
  | .ErrMissingFields => 400
  | .other _ => 400

/-! ## The git gateway (`api_git.go`) -/

/-- The struct `gitkit.Credential`. -/
structure Credential where
  Username : String := ""
  Password : String := ""
deriving DecidableEq, Repr

/-- What the `AuthFunc` of `handleGit` reads besides the repositories: the
user list (`Users.Find`, `ValidatePassword`), the namespace list
(`Namespaces.Find`), the data path of the system volume and the outcome of
`gitInitBare`. -/
structure GitWorld where
  /-- `store.state.Users.Find(username)`; `none` is `nil`. -/
  findUser : String → Option User
  /-- `user.ValidatePassword(password)`. -/
  validatePassword : User → String → Bool
  /-- `store.state.Namespaces.Find(name)`; `none` is `nil`. -/
  findNamespace : String → Option Namespace
  /-- `volume.Paths().Data`. -/
  data : String
  /-- `gitInitBare(path)`. -/
  gitInitBare : String → GoError

/-- The loop "Search through the repositories to find matching ones": the
repository that `repo` points to after the loop, `none` for `nil`. -/
def searchRepository (ns : Option Namespace) (identifier : String) :
    List Repository → Option Repository
  | [] => none
  | r :: rest =>
    if r.ID = identifier then some r
    else
      match ns with
      | none => if r.Name = identifier then some r else searchRepository ns identifier rest
      | some n =>
        if r.NamespaceID = n.ID ∧ r.Name = identifier then some r
        else searchRepository ns identifier rest

/-- The function assigned to `service.AuthFunc`: whether access is granted, the
error, and `req.RepoPath` afterwards. -/
def AuthFunc (g : GitWorld) (repos : List Repository) (creds : Credential)
    (repoPath : String) : Bool × GoError × String :=
  match g.findUser creds.Username with
  | none => (false, none, repoPath)
  | some user =>
    if g.validatePassword user creds.Password = false then (false, none, repoPath)
    else
      let urlPath := TrimPrefix repoPath "repo/"
      let tokens := Split urlPath
      let parsed : Option (Option Namespace × String) :=
        match tokens with
        | [t0] => some (none, t0)
        | [t0, t1] => some (g.findNamespace t0, t1)
        | _ => none
      match parsed with
      | none => (false, none, repoPath)
      | some (ns, identifier) =>
        match searchRepository ns identifier repos with
        | none => (false, none, repoPath)
        | some repo =>
          let path := Join [g.data, "repositories", repo.ID]
          match g.gitInitBare path with
          | some _ => (false, none, path)
          | none => (true, none, path)

/-- A gateway for examples: one user `ann` with password `pw`, one namespace
`team` with ID `ns1`, data under `/var/orbit`, and `git init` succeeding. -/
def calmGit : GitWorld :=
  { findUser := fun name => if name = "ann" then some { ID := "u1", Username := "ann" } else none
    validatePassword := fun _ pw => pw == "pw"
    findNamespace := fun name =>
      if name = "team" then some { ID := "ns1", Name := "team" } else none
    data := "/var/orbit"
    gitInitBare := fun _ => none }

/-! ## The edge generator (`edge/main.go`) -/

/-- Modelled from the spec: the struct `Challenge`, declared outside the sources
at hand; `main` reads its `Path` and `Token`. -/
structure Challenge where
  Path : String := ""
  Token : String := ""
deriving DecidableEq, Repr

/-- Modelled from the spec: the struct `Certificate`, declared outside the
sources at hand, with the fields that `main` and `ensureCertificate` read; the
two byte slices are lists of bytes. -/
structure Certificate where
  ID : String := ""
  FullChain : List Nat := []
  PrivateKey : List Nat := []
  Challenges : List Challenge := []
deriving DecidableEq, Repr

/-- Modelled from the spec: the struct of the routers that `GetRouters`
returns, declared outside the sources at hand, with the fields `main` reads. -/
structure Router where
  Domain : String := ""
  AppID : String := ""
  WWWRedirect : Bool := false
  CertificateID : String := ""
deriving DecidableEq, Repr

/-- The struct `nginx.App` with the fields that `main` sets. -/
structure App where
  Domain : String := ""
  ProxyTo : String := ""
  HTTPS : Bool := false
  WWWRedirect : Bool := false
  CertificateFile : String := ""
  CertificateKeyFile : String := ""
deriving DecidableEq, Repr

/-- The constant `CertsPath`. -/
def CertsPath : String := "/etc/nginx/certs"

/-- The constant `ChallengeFile`. -/
def ChallengeFile : String := "challenges.conf"

/-- The function `ensureCertificate`. The variable `cert` is the first
certificate with the given ID, or the zero value when the loop finds none. -/
def ensureCertificate (certID : String) (certs : List Certificate) : Bool :=
  if certID = "" then false
  else
    let cert : Certificate := (certs.find? fun c => c.ID == certID).getD {}
    if cert.ID = "" then false
    else if cert.FullChain.length = 0 ∨ cert.PrivateKey.length = 0 then false
    else true

/-- What `ioutil.WriteFile` is given: a byte slice, or a string converted to
bytes. -/
inductive FileData where
  | bytes (b : List Nat)
  | text (s : String)
deriving DecidableEq, Repr

/-- The data has no bytes. -/
def FileData.isEmpty : FileData → Bool
  | .bytes b => b.isEmpty
  | .text s => s.data.isEmpty

/-- The functions of the package `nginx` that `main` calls. -/
structure Nginx where
  GenerateLocation : String → String → String
  GenerateDefault : String
  Marshal : App → String

/-- The loop "Write the certificates and the challenges": the files written so
far (oldest first) and the challenges collected, or the message of
`log.Fatalf` when a write fails. `WriteFile` is the error of
`ioutil.WriteFile` for a path and its data. -/
def writeCertificates (WriteFile : String → FileData → GoError) :
    List Certificate → List (String × FileData) → List Challenge →
      Except String (List (String × FileData) × List Challenge)
  | [], writes, challenges => .ok (writes, challenges)
  | c :: rest, writes, challenges =>
    let certificatePath := Join [CertsPath, c.ID ++ ".crt"]
    let privateKeyPath := Join [CertsPath, c.ID ++ ".key"]
    match WriteFile certificatePath (.bytes c.FullChain) with
    | some err => .error ("Could not write certificate: " ++ err)
    | none =>
      match WriteFile privateKeyPath (.bytes c.PrivateKey) with
      | some err => .error ("Could not write private key: " ++ err)
      | none =>
        writeCertificates WriteFile rest
          (writes ++ [(certificatePath, .bytes c.FullChain), (privateKeyPath, .bytes c.PrivateKey)])
          (challenges ++ c.Challenges)

/-- The body of the loop over the routers: the app generated for one router. -/
def routerApp (certificates : List Certificate) (r : Router) : App :=
  let app : App := { Domain := r.Domain, ProxyTo := r.AppID, WWWRedirect := r.WWWRedirect }
  if ensureCertificate r.CertificateID certificates then
    { app with
      HTTPS := true
      CertificateFile := Join [CertsPath, r.CertificateID ++ ".crt"]
      CertificateKeyFile := Join [CertsPath, r.CertificateID ++ ".key"] }
  else app

/-- What one run of `main` leaves behind: the files written, oldest first, and
the apps generated for the routers, in order. -/
structure EdgeRun where
  writes : List (String × FileData)
  apps : List App
deriving DecidableEq, Repr

/-- The function `main` of the edge generator for the routers and certificates
that the client returns; an error is the message of the `log.Fatalf` that ends
the run. -/
def edgeMain (nx : Nginx) (WriteFile : String → FileData → GoError)
    (routers : List Router) (certificates : List Certificate) : Except String EdgeRun :=
  match writeCertificates WriteFile certificates [] [] with
  | .error msg => .error msg
  | .ok (writes, challenges) =>
    let challengeConfig :=
      challenges.foldl (fun acc c => acc ++ nx.GenerateLocation c.Path c.Token) ""
    let challengePath := Join [CertsPath, ChallengeFile]
    match WriteFile challengePath (.text challengeConfig) with
    | some err => .error ("Could not write challenge file: " ++ err)
    | none =>
      let config0 :=
        "" ++ "proxy_request_buffering off;\n"
          ++ "fastcgi_read_timeout 1d;\nproxy_read_timeout 1d;\n\n"
          ++ (nx.GenerateDefault ++ "\n\n")
      let apps := routers.map (routerApp certificates)
      let config := apps.foldl (fun acc app => acc ++ (nx.Marshal app ++ "\n\n")) config0
      match WriteFile "/etc/nginx/conf.d/orbit.conf" (.text config) with
      | some err => .error ("Could not write the config file: " ++ err)
      | none =>
        .ok { writes := writes ++ [(challengePath, .text challengeConfig),
                ("/etc/nginx/conf.d/orbit.conf", .text config)]
              apps := apps }

/-- The data most recently written to `path`, if any was. -/
def lastWritten (writes : List (String × FileData)) (path : String) : Option FileData :=
  (writes.reverse.find? fun w => w.1 == path).map Prod.snd

/-- An `nginx` package for examples, printing only the domain of an app. -/
def plainNginx : Nginx :=
  { GenerateLocation := fun path token => path ++ " " ++ token ++ "\n"
    GenerateDefault := "default"
    Marshal := fun app => app.Domain }

/-! ## `GenerateID` with its rounds counted -/

/-- The method `Deployments.GenerateID` as above, returning with the ID the
number of times `continue search` was executed before the `return`. -/
def GenerateIDRounds (d : Deployments) : List (List Nat) → Option (String × Nat)
  | [] => none
  | draw :: rest =>
    let id := EncodeToString (readRandom draw)
    if idInUse d id then
      (GenerateIDRounds d rest).map fun r => (r.1, r.2 + 1)
    else some (id, 0)

/-! ## Notions used to state the properties -/

/-- An element that `filepath.Clean` keeps as it is wherever it stands: not
empty, without a slash and without a dot. -/
def PlainElement (x : List Char) : Prop := x ≠ [] ∧ '/' ∉ x ∧ '.' ∉ x

/-- The elements of a path that `filepath.Clean` does not drop. -/
def keptOf (elems : List (List Char)) : List (List Char) :=
  elems.filter fun e => decide (e ≠ [] ∧ e ≠ ['.'])

/-- The value of a string of decimal digits. -/
def decValue (cs : List Char) : Nat :=
  cs.foldl (fun a c => 10 * a + (c.toNat - 48)) 0

/-- No element of the path is the parent directory `..`. -/
def NoParentElement (path : String) : Prop := ".." ∉ Split path

/-! ## Properties of `GenerateID` -/

theorem idInUse_eq_false_iff (d : Deployments) (id : String) :
    idInUse d id = false ↔ ∀ x ∈ d, x.ID ≠ id := by
  simp [idInUse]

/-- C1: whenever `GenerateID` returns, the returned ID differs from the ID of
every deployment in the list it was called on, whatever the list (also the empty
one) and whatever the random draws; and it does return as soon as some draw
encodes to an ID that is not in use. -/
theorem GenerateID_fresh (d : Deployments) (draws : List (List Nat)) :
    (∀ id, GenerateID d draws = some id → ∀ x ∈ d, x.ID ≠ id) ∧
    ((∃ draw ∈ draws, idInUse d (EncodeToString (readRandom draw)) = false) →
      ∃ id, GenerateID d draws = some id) := by
  induction draws with
  | nil => simp [GenerateID]
  | cons draw rest ih =>
    constructor
    · intro id h
      by_cases hc : idInUse d (EncodeToString (readRandom draw)) = true
      · simp only [GenerateID, hc, if_true] at h
        exact ih.1 id h
      · simp only [GenerateID, hc] at h
        have hid : EncodeToString (readRandom draw) = id := by simpa using h
        have hf : idInUse d id = false := by
          rw [← hid]; simpa using hc
        exact (idInUse_eq_false_iff d id).1 hf
    · rintro ⟨b, hb, hfree⟩
      by_cases hc : idInUse d (EncodeToString (readRandom draw)) = true
      · simp only [GenerateID, hc, if_true]
        rcases List.mem_cons.1 hb with rfl | hb'
        · rw [hfree] at hc; cases hc
        · exact ih.2 ⟨b, hb', hfree⟩
      · exact ⟨_, by simp only [GenerateID, hc]; rfl⟩

theorem GenerateID_fresh_witness :
    GenerateID [{ ID := "0000000000000000" }, { ID := "0102030405060708" }]
        [[], [1, 2, 3, 4, 5, 6, 7, 8], [171, 205, 239, 1, 35, 69, 103, 137]]
      = some "abcdef0123456789" ∧
    ∀ x ∈ ([{ ID := "0000000000000000" }, { ID := "0102030405060708" }] : Deployments),
      x.ID ≠ "abcdef0123456789" :=
  ⟨by decide,
   (GenerateID_fresh [{ ID := "0000000000000000" }, { ID := "0102030405060708" }]
      [[], [1, 2, 3, 4, 5, 6, 7, 8], [171, 205, 239, 1, 35, 69, 103, 137]]).1
      "abcdef0123456789" (by decide)⟩


/-! ## Properties of the build loop -/

theorem Store.after_nil (s : Store) : s.after [] = s := by
  simp [Store.after]

theorem Store.after_after (s : Store) (a b : List command) :
    (s.after a).after b = s.after (a ++ b) := by
  simp [Store.after]

theorem Accepting.after {s : Store} (h : Accepting s) (cmds : List command) :
    Accepting (s.after cmds) := fun history cmd => h history cmd

theorem loggedLines_append (a b : List command) :
    loggedLines (a ++ b) = loggedLines a ++ loggedLines b := by
  simp [loggedLines]

theorem loggedLines_flushed (dID key : String) (lineBuf : List String) :
    loggedLines (flushed dID key lineBuf) = lineBuf := by
  unfold flushed
  split
  · subst_vars; rfl
  · simp [loggedLines, appendCommand]

theorem flushed_shape (dID key : String) (lineBuf : List String) :
    ∀ c ∈ flushed dID key lineBuf, ∃ batch, batch ≠ [] ∧ c = appendCommand dID key batch := by
  intro c hc
  unfold flushed at hc
  split at hc
  · cases hc
  · rename_i hne
    exact ⟨lineBuf, hne, by simpa using hc⟩

theorem AppendBuildLog_accepting {s : Store} (h : Accepting s) (dID key : String)
    (lines : List String) :
    AppendBuildLog s dID key lines = (none, s.after (flushed dID key lines)) := by
  unfold AppendBuildLog flushed
  cases lines with
  | nil => simp [Store.after]
  | cons l ls =>
    simp [command.Apply, h _ _, Store.after, appendCommand]

theorem flushBuffer_accepting {s : Store} (h : Accepting s) (dID key : String)
    (lineBuf : List String) :
    flushBuffer dID key lineBuf s = (none, [], s.after (flushed dID key lineBuf)) := by
  simp [flushBuffer, AppendBuildLog_accepting h]

theorem linesOf_append (a b : List BuildEvent) :
    linesOf (a ++ b) = linesOf a ++ linesOf b := by
  induction a with
  | nil => rfl
  | cons e a ih => cases e <;> simp [linesOf, ih]

theorem selectLoop_append (dID key : String) (pre rest : List BuildEvent) :
    ∀ (lineBuf : List String) (s : Store),
      selectLoop dID key (pre ++ rest) lineBuf s =
        match selectLoop dID key pre lineBuf s with
        | .waiting b s' => selectLoop dID key rest b s'
        | .broke b s' => .broke b s'
        | .returned k e s' => .returned k e s' := by
  induction pre with
  | nil => intro lineBuf s; simp [selectLoop]
  | cons e pre ih =>
    intro lineBuf s
    cases e with
    | line text => simpa [selectLoop] using ih _ _
    | closed => simp [selectLoop]
    | failed err => simp [selectLoop]
    | tick =>
      simp only [List.cons_append, selectLoop]
      rcases hf : flushBuffer dID key lineBuf s with ⟨err, b, s'⟩
      cases err with
      | none => simpa using ih _ _
      | some msg => simp

theorem selectLoop_linesAndTicks (dID key : String) (pre : List BuildEvent) :
    ∀ (lineBuf : List String) (s : Store), LinesAndTicks pre → Accepting s →
      ∃ b cmds, selectLoop dID key pre lineBuf s = .waiting b (s.after cmds) ∧
        (∀ c ∈ cmds, ∃ batch, batch ≠ [] ∧ c = appendCommand dID key batch) ∧
        loggedLines cmds ++ b = lineBuf ++ linesOf pre := by
  induction pre with
  | nil =>
    intro lineBuf s _ _
    exact ⟨lineBuf, [], by simp [selectLoop, Store.after_nil], by simp, by simp [loggedLines, linesOf]⟩
  | cons e pre ih =>
    intro lineBuf s hq hacc
    have hq' : LinesAndTicks pre := fun x hx => hq x (List.mem_cons_of_mem _ hx)
    rcases hq e (List.mem_cons_self _ _) with rfl | ⟨text, rfl⟩
    · obtain ⟨b, cmds, h1, h2, h3⟩ := ih [] (s.after (flushed dID key lineBuf)) hq' (hacc.after _)
      refine ⟨b, flushed dID key lineBuf ++ cmds, ?_, ?_, ?_⟩
      · simp only [selectLoop, flushBuffer_accepting hacc, h1, Store.after_after]
      · intro c hc
        rcases List.mem_append.1 hc with hc | hc
        · exact flushed_shape dID key lineBuf c hc
        · exact h2 c hc
      · rw [loggedLines_append, loggedLines_flushed, List.append_assoc, h3]
        simp [linesOf]
    · obtain ⟨b, cmds, h1, h2, h3⟩ := ih (lineBuf ++ [text]) s hq' hacc
      exact ⟨b, cmds, by simp only [selectLoop, h1], h2, by rw [h3]; simp [linesOf]⟩

theorem selectLoop_ticks (dID key : String) (mid : List BuildEvent) :
    ∀ (s : Store), (∀ e ∈ mid, e = BuildEvent.tick) → Accepting s →
      selectLoop dID key mid [] s = .waiting [] s := by
  induction mid with
  | nil => intro s _ _; rfl
  | cons e mid ih =>
    intro s hm hacc
    have he : e = BuildEvent.tick := hm e (List.mem_cons_self _ _)
    subst he
    have := ih s (fun x hx => hm x (List.mem_cons_of_mem _ hx)) hacc
    simp only [selectLoop, flushBuffer_accepting hacc, flushed, if_true, Store.after_nil, this]


theorem runBuild_closed {s : Store} (hacc : Accepting s) (dID key : String)
    (pre rest : List BuildEvent) (hpre : LinesAndTicks pre) :
    ∃ cmds, runBuild dID key (pre ++ BuildEvent.closed :: rest) s
        = (some (key, none), s.after cmds) ∧
      (∀ c ∈ cmds, ∃ batch, batch ≠ [] ∧ c = appendCommand dID key batch) ∧
      loggedLines cmds = linesOf pre := by
  obtain ⟨b, cmds, h1, h2, h3⟩ := selectLoop_linesAndTicks dID key pre [] s hpre hacc
  refine ⟨cmds ++ flushed dID key b, ?_, ?_, ?_⟩
  · simp only [runBuild, selectLoop_append, h1, selectLoop,
      flushBuffer_accepting (hacc.after cmds), Store.after_after]
  · intro c hc
    rcases List.mem_append.1 hc with hc | hc
    · exact h2 c hc
    · exact flushed_shape dID key b c hc
  · rw [loggedLines_append, loggedLines_flushed, h3]; simp

theorem runBuild_failed (dID key : String) (evs rest : List BuildEvent) (e : GoError)
    (s s1 : Store) (b : List String)
    (hrun : selectLoop dID key evs [] s = .waiting b s1) :
    runBuild dID key (evs ++ BuildEvent.failed e :: rest) s = (some (key, e), s1) := by
  simp only [runBuild, selectLoop_append, hrun, selectLoop]

/-- C2: when the build is started and its output closes with only lines and
ticks received before (in any interleaving) and the store accepts every
command, `BuildDeployment` returns the build key and no error, and what it
handed to the store is a list of `Deployment.AppendBuildLog` commands for
`d.ID`, each carrying one non-empty batch under that key, whose batches in
order make up exactly the lines received. -/
theorem BuildDeployment_streams_output (w : BuildWorld) (s : Store) (d : Deployment)
    (key : String) (pre rest : List BuildEvent)
    (hstart : buildSetup w s d = .ok (key, pre ++ BuildEvent.closed :: rest))
    (hpre : LinesAndTicks pre) (hacc : Accepting s) :
    ∃ cmds, BuildDeployment w s d = (some (key, none), s.after cmds) ∧
      (∀ c ∈ cmds, ∃ batch, batch ≠ [] ∧ c = appendCommand d.ID key batch) ∧
      loggedLines cmds = linesOf pre := by
  obtain ⟨cmds, h1, h2, h3⟩ := runBuild_closed hacc d.ID key pre rest hpre
  exact ⟨cmds, by simp only [BuildDeployment, hstart, h1], h2, h3⟩

theorem BuildDeployment_streams_output_witness :
    ∃ cmds,
      BuildDeployment
          (calmWorld 17 [.line "step1", .tick, .tick, .line "step2", .line "step3", .closed, .tick])
          calmStore webDeployment
        = (some ("abc123/17/svc", none), calmStore.after cmds) ∧
      (∀ c ∈ cmds, ∃ batch, batch ≠ [] ∧ c = appendCommand webDeployment.ID "abc123/17/svc" batch) ∧
      loggedLines cmds = ["step1", "step2", "step3"] :=
  BuildDeployment_streams_output
    (calmWorld 17 [.line "step1", .tick, .tick, .line "step2", .line "step3", .closed, .tick])
    calmStore webDeployment "abc123/17/svc"
    [.line "step1", .tick, .tick, .line "step2", .line "step3"] [.tick]
    (by rfl)
    (by
      intro e he
      simp only [List.mem_cons, List.mem_singleton, List.not_mem_nil, or_false] at he
      rcases he with rfl | rfl | rfl | rfl | rfl <;> simp)
    (fun _ _ => rfl)

/-- C4: when the external build emits lines and then a terminal error, a tick is
handled after the last line and before the error is received, and the store
accepts every command, `BuildDeployment` returns the key with that non-nil
error, and what it handed to the store are `Deployment.AppendBuildLog` commands
under the key whose batches make up exactly all the lines emitted, in order.
In every case, once the loop receives the terminal error the call returns the
key and the error with the store as it was at that moment: nothing is handed to
it afterwards. -/
theorem BuildDeployment_terminal_error (w : BuildWorld) (s : Store) (d : Deployment)
    (key msg : String) (pre mid rest : List BuildEvent)
    (hstart : buildSetup w s d
      = .ok (key, pre ++ BuildEvent.tick :: (mid ++ BuildEvent.failed (some msg) :: rest)))
    (hpre : LinesAndTicks pre) (hmid : ∀ x ∈ mid, x = BuildEvent.tick) (hacc : Accepting s) :
    (∃ cmds, BuildDeployment w s d = (some (key, some msg), s.after cmds) ∧
      (∀ c ∈ cmds, ∃ batch, batch ≠ [] ∧ c = appendCommand d.ID key batch) ∧
      loggedLines cmds = linesOf pre) ∧
    (∀ (evs rest' : List BuildEvent) (e : GoError) (b : List String) (s0 s1 : Store),
      selectLoop d.ID key evs [] s0 = .waiting b s1 →
      runBuild d.ID key (evs ++ BuildEvent.failed e :: rest') s0 = (some (key, e), s1)) := by
  refine ⟨?_, fun evs rest' e b s0 s1 hrun => runBuild_failed d.ID key evs rest' e s0 s1 b hrun⟩
  obtain ⟨b0, cmds, h1, h2, h3⟩ := selectLoop_linesAndTicks d.ID key pre [] s hpre hacc
  have hacc1 : Accepting ((s.after cmds).after (flushed d.ID key b0)) :=
    (hacc.after cmds).after _
  have h4 : selectLoop d.ID key (pre ++ BuildEvent.tick :: mid) [] s
      = .waiting [] (s.after (cmds ++ flushed d.ID key b0)) := by
    rw [selectLoop_append, h1]
    simp only [selectLoop, flushBuffer_accepting (hacc.after cmds)]
    rw [selectLoop_ticks d.ID key mid _ hmid hacc1, Store.after_after]
  have hev : pre ++ BuildEvent.tick :: (mid ++ BuildEvent.failed (some msg) :: rest)
      = (pre ++ BuildEvent.tick :: mid) ++ BuildEvent.failed (some msg) :: rest := by
    simp
  refine ⟨cmds ++ flushed d.ID key b0, ?_, ?_, ?_⟩
  · simp only [BuildDeployment, hstart]
    rw [hev, runBuild_failed d.ID key _ rest (some msg) s _ [] h4]
  · intro c hc
    rcases List.mem_append.1 hc with hc | hc
    · exact h2 c hc
    · exact flushed_shape d.ID key b0 c hc
  · rw [loggedLines_append, loggedLines_flushed, h3]; simp

theorem BuildDeployment_terminal_error_witness :
    ∃ cmds,
      BuildDeployment
          (calmWorld 17 [.line "step1", .line "step2", .tick, .failed (some "exit status 1"),
            .tick, .closed])
          calmStore webDeployment
        = (some ("abc123/17/svc", some "exit status 1"), calmStore.after cmds) ∧
      (∀ c ∈ cmds, ∃ batch, batch ≠ [] ∧ c = appendCommand webDeployment.ID "abc123/17/svc" batch) ∧
      loggedLines cmds = ["step1", "step2"] :=
  (BuildDeployment_terminal_error
    (calmWorld 17 [.line "step1", .line "step2", .tick, .failed (some "exit status 1"),
      .tick, .closed])
    calmStore webDeployment "abc123/17/svc" "exit status 1"
    [.line "step1", .line "step2"] [] [.tick, .closed] (by rfl)
    (by
      intro e he
      simp only [List.mem_cons, List.mem_singleton, List.not_mem_nil, or_false] at he
      rcases he with rfl | rfl <;> simp)
    (by simp) (fun _ _ => rfl)).1

/-! ## Properties of `AppendBuildLog` and of the results of a failed build -/

theorem decimalAux_ne_nil (fuel n : Nat) (acc : List Char) (h : acc ≠ []) :
    decimalAux fuel n acc ≠ [] := by
  induction fuel generalizing n acc with
  | zero => simpa [decimalAux] using h
  | succ fuel ih =>
    unfold decimalAux
    split
    · simp
    · exact ih _ _ (by simp)

theorem formatNat_ne_nil (n : Nat) : formatNat n ≠ [] := by
  unfold formatNat decimalAux
  split
  · simp
  · exact decimalAux_ne_nil _ _ _ (by simp)

theorem formatInt_data_ne_nil (n : Int) : (formatInt n).data ≠ [] := by
  unfold formatInt
  split
  · simp
  · exact formatNat_ne_nil _

theorem cleanChars_ne_nil (path : List Char) : cleanChars path ≠ [] := by
  unfold cleanChars
  simp only
  intro h
  split_ifs at h <;> simp_all

theorem buildKey_ne_empty (hash : String) (now : Int) (path : String) :
    buildKey hash now path ≠ "" := by
  intro h
  have h' : (buildKey hash now path).data = [] := by rw [h]
  simp only [buildKey, Join, List.map, joinChars] at h'
  split at h'
  · split at h'
    · exact formatInt_data_ne_nil now (by assumption)
    · exact cleanChars_ne_nil _ h'
  · exact cleanChars_ne_nil _ h'

theorem buildSetup_ok_key (w : BuildWorld) (s : Store) (d : Deployment) (key tmp : String)
    (events : List BuildEvent) (htmp : w.TempDir = .ok tmp)
    (h : buildSetup w s d = .ok (key, events)) :
    ∃ output, w.gitRevParse tmp = .ok output ∧
      key = buildKey (TrimSpace output) w.now d.Path := by
  cases hr : s.state.Repositories.find? (fun r => r.ID == d.Repository) with
  | none => simp only [buildSetup, hr] at h; cases h
  | some repo =>
    cases hv : s.volumeData with
    | none => simp only [buildSetup, hr, hv] at h; cases h
    | some data =>
      cases hc : w.gitClone (Join [data, "repositories", repo.ID]) tmp with
      | some e => simp only [buildSetup, hr, hv, htmp, hc] at h; cases h
      | none =>
        cases hco : (if d.Branch ≠ "" then w.gitCheckout tmp d.Branch else none) with
        | some e => simp only [buildSetup, hr, hv, htmp, hc, hco] at h; cases h
        | none =>
          cases hrev : w.gitRevParse tmp with
          | error e => simp only [buildSetup, hr, hv, htmp, hc, hco, hrev] at h; cases h
          | ok output =>
            cases hdf : w.EnsureDockerfile (Join [tmp, d.Path]) with
            | some e =>
              simp only [buildSetup, hr, hv, htmp, hc, hco, hrev, hdf] at h; cases h
            | none =>
              simp only [buildSetup, hr, hv, htmp, hc, hco, hrev, hdf] at h
              injection h with h
              injection h with hk _
              exact ⟨output, rfl, hk.symm⟩

/-- C5 (as the code has it): with the repository, the system volume and the
scratch directory found, a failed `git clone`, a failed branch checkout and a
failed `EnsureDockerfile` each make `BuildDeployment` return a non-nil error
together with the empty string (no key exists yet, the store is untouched),
while a terminal error received from the external build is returned together
with the build key of this attempt, `filepath.Join(hash, now, d.Path)`. -/
theorem BuildDeployment_failure_results (w : BuildWorld) (s : Store) (d : Deployment)
    (repo : Repository) (data tmp : String)
    (hrepo : s.state.Repositories.find? (fun r => r.ID == d.Repository) = some repo)
    (hvol : s.volumeData = some data)
    (htmp : w.TempDir = .ok tmp) :
    (∀ err, w.gitClone (Join [data, "repositories", repo.ID]) tmp = some err →
      BuildDeployment w s d
        = (some ("", some ("could not run git clone command: " ++ err)), s)) ∧
    (w.gitClone (Join [data, "repositories", repo.ID]) tmp = none →
      ∀ err, d.Branch ≠ "" → w.gitCheckout tmp d.Branch = some err →
        BuildDeployment w s d = (some ("", some err), s)) ∧
    (w.gitClone (Join [data, "repositories", repo.ID]) tmp = none →
      (d.Branch ≠ "" → w.gitCheckout tmp d.Branch = none) →
      ∀ output err, w.gitRevParse tmp = .ok output →
        w.EnsureDockerfile (Join [tmp, d.Path]) = some err →
        BuildDeployment w s d
          = (some ("", some ("could not ensure dockerfile: " ++ err)), s)) ∧
    (∀ key evs rest msg b s1,
      buildSetup w s d = .ok (key, evs ++ BuildEvent.failed (some msg) :: rest) →
      selectLoop d.ID key evs [] s = .waiting b s1 →
      BuildDeployment w s d = (some (key, some msg), s1) ∧
      ∃ output, w.gitRevParse tmp = .ok output ∧
        key = buildKey (TrimSpace output) w.now d.Path) := by
  refine ⟨?_, ?_, ?_, ?_⟩
  · intro err hclone
    simp [BuildDeployment, buildSetup, hrepo, hvol, htmp, hclone]
  · intro hclone err hb hco
    simp [BuildDeployment, buildSetup, hrepo, hvol, htmp, hclone, hb, hco]
  · intro hclone hco output err hrev hdf
    by_cases hb : d.Branch = ""
    · simp [BuildDeployment, buildSetup, hrepo, hvol, htmp, hclone, hb, hrev, hdf]
    · simp [BuildDeployment, buildSetup, hrepo, hvol, htmp, hclone, hb, hco hb, hrev, hdf]
  · intro key evs rest msg b s1 hstart hrun
    refine ⟨?_, ?_⟩
    · simp only [BuildDeployment, hstart, runBuild_failed d.ID key evs rest (some msg) s s1 b hrun]
    · exact buildSetup_ok_key w s d key tmp _ htmp hstart

theorem BuildDeployment_failure_results_witness :
    BuildDeployment cloneFailWorld calmStore webDeployment
      = (some ("", some "could not run git clone command: exit status 128"), calmStore) :=
  (BuildDeployment_failure_results cloneFailWorld calmStore webDeployment
    { ID := "r1", Name := "app", NamespaceID := "team" } "/var/orbit" "/tmp/b1"
    (by decide) (by rfl) (by rfl)).1 "exit status 128" (by rfl)

/-- C5 as stated fails: when `git clone` fails, `BuildDeployment` returns the
error together with the empty string, and the empty string is the build key of
no attempt. -/
theorem BuildDeployment_clone_failure_has_no_key :
    (BuildDeployment cloneFailWorld calmStore webDeployment).1
      = some ("", some "could not run git clone command: exit status 128") ∧
    ∀ hash now path, buildKey hash now path ≠ "" :=
  ⟨by rfl, buildKey_ne_empty⟩

/-- C6: `AppendBuildLog` with no lines returns `nil` and leaves the store as it
is, so a tick and the final flush that find the buffer empty hand nothing to
the store; with at least one line it hands over exactly one command, a
`Deployment.AppendBuildLog` for the given deployment whose `BuildLogs` maps the
given key, and nothing else, to the given lines in their order, and returns
what the store answers to it. -/
theorem AppendBuildLog_effect (s : Store) (dID key : String) :
    AppendBuildLog s dID key [] = (none, s) ∧
    (∀ evs, selectLoop dID key (BuildEvent.tick :: evs) [] s = selectLoop dID key evs [] s) ∧
    (∀ evs, runBuild dID key (BuildEvent.closed :: evs) s = (some (key, none), s)) ∧
    (∀ l ls,
      (AppendBuildLog s dID key (l :: ls)).2.submitted = s.submitted ++
        [{ Op := "Deployment.AppendBuildLog",
           Deployment := { ID := dID, BuildLogs := [(key, l :: ls)] } }] ∧
      (AppendBuildLog s dID key (l :: ls)).2.state = s.state ∧
      (AppendBuildLog s dID key (l :: ls)).1 = s.outcome s.submitted
        { Op := "Deployment.AppendBuildLog",
          Deployment := { ID := dID, BuildLogs := [(key, l :: ls)] } }) := by
  have h0 : AppendBuildLog s dID key [] = (none, s) := by simp [AppendBuildLog]
  refine ⟨h0, ?_, ?_, ?_⟩
  · intro evs
    simp [selectLoop, flushBuffer, h0]
  · intro evs
    simp [runBuild, selectLoop, flushBuffer, h0]
  · intro l ls
    simp only [AppendBuildLog, command.Apply, List.length_cons, Nat.add_one_ne_zero, if_false,
      opAppendBuildLog]
    split <;> rename_i h <;> simp only [Prod.mk.injEq] at h <;>
      obtain ⟨h1, h2⟩ := h <;> subst h2 <;> simp [h1]

/-! ## Properties of the build key -/

theorem digitChar_value : ∀ d < 10, (digitChar d).toNat - 48 = d := by decide

theorem digitChar_mem : ∀ d < 10, digitChar d ∈ ['0', '1', '2', '3', '4', '5', '6', '7', '8', '9'] := by
  decide

theorem decimalAux_acc (fuel : Nat) : ∀ (n : Nat) (acc : List Char),
    decimalAux fuel n acc = decimalAux fuel n [] ++ acc := by
  induction fuel with
  | zero => intro n acc; simp [decimalAux]
  | succ fuel ih =>
    intro n acc
    unfold decimalAux
    split
    · simp
    · rw [ih _ (_ :: acc), ih _ [_]]; simp

theorem decValue_snoc (cs : List Char) (c : Char) :
    decValue (cs ++ [c]) = 10 * decValue cs + (c.toNat - 48) := by
  simp [decValue, List.foldl_append]

theorem decValue_decimalAux (fuel : Nat) : ∀ n, n < fuel →
    decValue (decimalAux fuel n []) = n := by
  induction fuel with
  | zero => intro n h; omega
  | succ fuel ih =>
    intro n h
    unfold decimalAux
    split
    · rename_i h10
      simp [decValue, digitChar_value n h10]
    · rename_i h10
      rw [decimalAux_acc, decValue_snoc, ih (n / 10) (by omega),
        digitChar_value _ (Nat.mod_lt _ (by decide))]
      omega

theorem decValue_formatNat (n : Nat) : decValue (formatNat n) = n :=
  decValue_decimalAux (n + 1) n (Nat.lt_succ_self n)

theorem decimalAux_digits (fuel : Nat) : ∀ (n : Nat),
    ∀ c ∈ decimalAux fuel n [], c ∈ ['0', '1', '2', '3', '4', '5', '6', '7', '8', '9'] := by
  induction fuel with
  | zero => intro n c hc; simp [decimalAux] at hc
  | succ fuel ih =>
    intro n c hc
    unfold decimalAux at hc
    split at hc
    · rename_i h10
      rw [List.mem_singleton] at hc
      rw [hc]; exact digitChar_mem n h10
    · rw [decimalAux_acc, List.mem_append, List.mem_singleton] at hc
      rcases hc with hc | hc
      · exact ih _ c hc
      · rw [hc]; exact digitChar_mem _ (Nat.mod_lt _ (by decide))

theorem formatNat_digits (n : Nat) :
    ∀ c ∈ formatNat n, c ∈ ['0', '1', '2', '3', '4', '5', '6', '7', '8', '9'] :=
  decimalAux_digits (n + 1) n

theorem formatInt_chars (t : Int) :
    ∀ c ∈ (formatInt t).data, c ∈ ['-', '0', '1', '2', '3', '4', '5', '6', '7', '8', '9'] := by
  intro c hc
  unfold formatInt at hc
  split at hc
  · rcases List.mem_cons.1 hc with rfl | hc
    · simp
    · exact List.mem_cons_of_mem _ (formatNat_digits _ c hc)
  · exact List.mem_cons_of_mem _ (formatNat_digits _ c hc)

theorem formatInt_plain (t : Int) : PlainElement (formatInt t).data := by
  refine ⟨formatInt_data_ne_nil t, ?_, ?_⟩
  · intro h; have := formatInt_chars t _ h; revert this; decide
  · intro h; have := formatInt_chars t _ h; revert this; decide

theorem formatInt_injective (t1 t2 : Int) (h : formatInt t1 = formatInt t2) : t1 = t2 := by
  have hd : (formatInt t1).data = (formatInt t2).data := by rw [h]
  have hminus : ∀ n, '-' ∉ formatNat n := by
    intro n hc; have := formatNat_digits n _ hc; revert this; decide
  unfold formatInt at hd
  by_cases h1 : t1 < 0 <;> by_cases h2 : t2 < 0 <;> simp only [h1, h2, if_true, if_false] at hd
  · have := congrArg decValue (List.cons.inj hd).2
    rw [decValue_formatNat, decValue_formatNat] at this
    omega
  · exact absurd (hd ▸ List.mem_cons_self _ _) (hminus _)
  · exact absurd (hd ▸ List.mem_cons_self _ _) (hminus _)
  · have := congrArg decValue hd
    rw [decValue_formatNat, decValue_formatNat] at this
    omega

theorem splitOn_ne_nil (sep : Char) (cs : List Char) : splitOn sep cs ≠ [] := by
  cases cs with
  | nil => simp [splitOn]
  | cons c cs =>
    unfold splitOn
    split
    · simp
    · split <;> simp

theorem splitOn_of_not_mem (sep : Char) (cs : List Char) (h : sep ∉ cs) :
    splitOn sep cs = [cs] := by
  induction cs with
  | nil => rfl
  | cons c cs ih =>
    have hc : c ≠ sep := fun e => h (e ▸ List.mem_cons_self _ _)
    have ih' := ih (fun m => h (List.mem_cons_of_mem _ m))
    simp [splitOn, hc, ih']

theorem splitOn_append (sep : Char) (a b : List Char) :
    splitOn sep (a ++ sep :: b) = splitOn sep a ++ splitOn sep b := by
  induction a with
  | nil => simp [splitOn]
  | cons c a ih =>
    by_cases hc : c = sep
    · simp [splitOn, hc, ih]
    · simp only [List.cons_append, splitOn, hc, if_false, List.append_eq]
      rw [ih]
      cases hs : splitOn sep a with
      | nil => exact absurd hs (splitOn_ne_nil sep a)
      | cons w ws => simp

theorem cleanStep_plain (rooted : Bool) (kept : List (List Char)) (x : List Char)
    (hx : PlainElement x) : cleanStep rooted kept x = x :: kept := by
  obtain ⟨h1, _, h3⟩ := hx
  have h2 : x ≠ ['.'] := fun e => h3 (e ▸ List.mem_cons_self _ _)
  have h4 : x ≠ ['.', '.'] := fun e => h3 (e ▸ List.mem_cons_self _ _)
  simp [cleanStep, h1, h2, h4]

theorem foldl_cleanStep_noParent (rooted : Bool) (elems : List (List Char))
    (h : ['.', '.'] ∉ elems) : ∀ kept,
    elems.foldl (cleanStep rooted) kept = (keptOf elems).reverse ++ kept := by
  induction elems with
  | nil => intro kept; simp [keptOf]
  | cons e elems ih =>
    intro kept
    have he : e ≠ ['.', '.'] := fun x => h (x ▸ List.mem_cons_self _ _)
    have ih' := ih (fun m => h (List.mem_cons_of_mem _ m))
    rw [List.foldl_cons, ih']
    by_cases hd : e = [] ∨ e = ['.']
    · have hk : keptOf (e :: elems) = keptOf elems := by
        rcases hd with rfl | rfl <;> simp [keptOf]
      rw [hk]
      simp [cleanStep, hd]
    · have hk : keptOf (e :: elems) = e :: keptOf elems := by
        rw [not_or] at hd
        simp [keptOf, hd.1, hd.2]
      rw [hk]
      simp [cleanStep, hd, he]

theorem joinSlash_cons_ne_nil (x : List Char) (rest : List (List Char)) (hx : x ≠ []) :
    joinSlash (x :: rest) ≠ [] := by
  cases rest with
  | nil => simpa [joinSlash] using hx
  | cons y rest => simp [joinSlash, hx]

theorem joinSlash_mid_ne_nil (front : List (List Char)) (x : List Char)
    (back : List (List Char)) (hx : x ≠ []) : joinSlash (front ++ x :: back) ≠ [] := by
  cases front with
  | nil => exact joinSlash_cons_ne_nil x back hx
  | cons a front =>
    cases hf : front ++ x :: back with
    | nil => simp at hf
    | cons y rest => rw [List.cons_append, hf]; simp [joinSlash]

theorem joinSlash_mid_cancel (front : List (List Char)) (x1 x2 : List Char)
    (back : List (List Char))
    (h : joinSlash (front ++ x1 :: back) = joinSlash (front ++ x2 :: back)) : x1 = x2 := by
  induction front with
  | nil =>
    cases back with
    | nil => simpa [joinSlash] using h
    | cons y rest =>
      simp only [List.nil_append, joinSlash] at h
      exact List.append_cancel_right h
  | cons a front ih =>
    cases h1 : front ++ x1 :: back with
    | nil => simp at h1
    | cons y1 r1 =>
      cases h2 : front ++ x2 :: back with
      | nil => simp at h2
      | cons y2 r2 =>
        simp only [List.cons_append, h1, h2, joinSlash] at h
        have h' := List.append_cancel_left h
        rw [List.cons.injEq] at h'
        rw [← h1, ← h2] at h'
        exact ih h'.2

theorem cleanChars_of_split (path : List Char) (rooted : Bool) (front back : List (List Char))
    (x : List Char) (hr : rooted = decide (path.head? = some '/'))
    (hs : splitOn '/' path = front ++ x :: back) (hx : PlainElement x)
    (hb : ['.', '.'] ∉ back) :
    cleanChars path = (if rooted then ['/'] else []) ++
      joinSlash ((front.foldl (cleanStep rooted) []).reverse ++ x :: keptOf back) := by
  subst hr
  unfold cleanChars
  simp only [hs, decide_eq_true_eq, List.foldl_append, List.foldl_cons, cleanStep_plain _ _ _ hx,
    foldl_cleanStep_noParent _ back hb, List.reverse_append, List.reverse_reverse,
    List.reverse_cons, List.append_assoc, List.singleton_append]
  rw [if_neg]
  intro h
  have := (List.append_eq_nil.1 h).2
  exact joinSlash_mid_ne_nil _ x _ hx.1 this

theorem noParentElement_chars (path : String) (h : NoParentElement path) :
    ['.', '.'] ∉ splitOn '/' path.data := by
  intro hm
  apply h
  unfold Split
  exact List.mem_map.2 ⟨_, hm, rfl⟩

theorem head_plain_append (x rest : List Char) (hx : PlainElement x) :
    false = decide ((x ++ rest).head? = some '/') := by
  obtain ⟨h1, h2, _⟩ := hx
  cases x with
  | nil => exact absurd rfl h1
  | cons c cs =>
    have : c ≠ '/' := fun e => h2 (e ▸ List.mem_cons_self _ _)
    simp [this]

theorem head_append_of_ne_nil (x rest : List Char) (hx : x ≠ []) :
    (x ++ rest).head? = x.head? := by
  cases x with
  | nil => exact absurd rfl hx
  | cons c cs => rfl

theorem joinChars_key (hash path : List Char) (hp : ['.', '.'] ∉ splitOn '/' path) :
    ∃ root front back, ∀ now, PlainElement now →
      joinChars [hash, now, path] = root ++ joinSlash (front ++ now :: back) := by
  by_cases hh : hash = []
  · refine ⟨[], [], keptOf (splitOn '/' path), ?_⟩
    intro now hnow
    have hs : splitOn '/' (now ++ '/' :: path) = [] ++ now :: splitOn '/' path := by
      rw [splitOn_append, splitOn_of_not_mem _ _ hnow.2.1]; rfl
    have := cleanChars_of_split (now ++ '/' :: path) false [] (splitOn '/' path) now
      (head_plain_append now _ hnow) hs hnow hp
    simpa [joinChars, hh, hnow.1, joinSlash] using this
  · refine ⟨if decide (hash.head? = some '/') then ['/'] else [],
      ((splitOn '/' hash).foldl (cleanStep (decide (hash.head? = some '/'))) []).reverse,
      keptOf (splitOn '/' path), ?_⟩
    intro now hnow
    have hs : splitOn '/' (hash ++ '/' :: (now ++ '/' :: path))
        = splitOn '/' hash ++ now :: splitOn '/' path := by
      rw [splitOn_append, splitOn_append, splitOn_of_not_mem _ _ hnow.2.1]; rfl
    have := cleanChars_of_split (hash ++ '/' :: (now ++ '/' :: path))
      (decide (hash.head? = some '/')) (splitOn '/' hash) (splitOn '/' path) now
      (by rw [head_append_of_ne_nil _ _ hh]) hs hnow hp
    simpa [joinChars, hh, joinSlash] using this

/-- Where no element of the subpath is `..`, the clock reading stays in the
key: the keys `filepath.Join(hash, now, path)` of two different clock readings
are different. -/
theorem buildKey_differs_in_time (hash path : String) (t1 t2 : Int)
    (hpath : NoParentElement path) (ht : t1 ≠ t2) :
    buildKey hash t1 path ≠ buildKey hash t2 path := by
  intro h
  obtain ⟨root, front, back, hkey⟩ :=
    joinChars_key hash.data path.data (noParentElement_chars path hpath)
  have h1 := hkey _ (formatInt_plain t1)
  have h2 := hkey _ (formatInt_plain t2)
  have hd : joinChars [hash.data, (formatInt t1).data, path.data]
      = joinChars [hash.data, (formatInt t2).data, path.data] := by
    have := congrArg String.data h
    simpa [buildKey, Join] using this
  rw [h1, h2] at hd
  have hx := joinSlash_mid_cancel front _ _ back (List.append_cancel_left hd)
  exact ht (formatInt_injective t1 t2 (String.ext hx))

/-- C3, the code at the failing input: for a deployment whose `Path` is `..`,
`filepath.Join` cleans the clock reading out of the key. Two builds of commit
`abc123` started at two different clock readings both return the key `abc123`,
the bare commit hash. -/
theorem buildKey_parent_path_collides :
    (1572951600000000001 : Int) ≠ 1572951600000000002 ∧
    buildKey "abc123" 1572951600000000001 ".." = "abc123" ∧
    buildKey "abc123" 1572951600000000002 ".." = "abc123" ∧
    (BuildDeployment (calmWorld 1572951600000000001 [.line "step1", .closed]) calmStore
      { webDeployment with Path := ".." }).1 = some ("abc123", none) ∧
    (BuildDeployment (calmWorld 1572951600000000002 [.line "step1", .closed]) calmStore
      { webDeployment with Path := ".." }).1 = some ("abc123", none) := by
  decide

/-! ## Properties of setup and bootstrap -/

theorem handleNodeRequest_running (Ready Running : Status) (hlt : Ready < Running) (n : Node)
    (r : NodeRequest) (hn : n.Status = Running) :
    handleNodeRequest Ready Running n r = (n, alreadyRunningResponse r) := by
  have h1 : n.Status ≥ Ready := by rw [hn]; exact le_of_lt hlt
  have h2 : n.Status ≠ Ready := by rw [hn]; exact ne_of_gt hlt
  cases r with
  | setup bindErr rawIP parses openErr =>
    have hb : afterBind bindErr 400 = 400 := by cases bindErr <;> rfl
    simp [handleNodeRequest, handleSetup, alreadyRunningResponse, h1, hb]
  | bootstrap bootErr =>
    simp only [handleNodeRequest, handleBootstrap, alreadyRunningResponse, if_pos h2, if_pos hn]

theorem handleNodeRequest_step (Ready Running : Status) (hlt : Ready < Running) (n : Node)
    (r : NodeRequest) :
    n.Status ≤ (handleNodeRequest Ready Running n r).1.Status ∧
    ∃ k, (handleNodeRequest Ready Running n r).1.bootstrapCalls
      = n.bootstrapCalls ++ List.replicate k Ready := by
  cases r with
  | setup bindErr rawIP parses openErr =>
    simp only [handleNodeRequest, handleSetup]
    split_ifs with h1 h2 h3
    · exact ⟨le_refl _, 0, by simp⟩
    · exact ⟨le_refl _, 0, by simp⟩
    · exact ⟨le_refl _, 0, by simp⟩
    · cases openErr with
      | some e => exact ⟨le_refl _, 0, by simp⟩
      | none => exact ⟨le_of_lt (not_le.1 h1), 0, by simp⟩
  | bootstrap bootErr =>
    by_cases h1 : n.Status = Ready
    · simp only [handleNodeRequest, handleBootstrap, if_neg (not_not.2 h1)]
      cases bootErr with
      | some e => exact ⟨le_refl _, 1, by simp [h1]⟩
      | none => exact ⟨by simp only [h1]; exact le_of_lt hlt, 1, by simp [h1]⟩
    · simp only [handleNodeRequest, handleBootstrap, if_pos (show n.Status ≠ Ready from h1)]
      exact ⟨le_refl _, 0, by simp⟩

/-- C7: for every sequence of setup and bootstrap requests handled by one node,
with `Ready < Running`: the status never decreases; every call of
`store.Bootstrap()` is made while the status is exactly `Ready`; a bootstrap
request is answered with 200 only when it ran with status `Ready`, its call of
`store.Bootstrap()` succeeded and it set the status to `Running`; and from
status `Running` on, every request is answered with the error 400, the status
stays `Running` and `store.Bootstrap()` is not called again. -/
theorem bootstrap_only_once (Ready Running : Status) (hlt : Ready < Running) (n : Node)
    (reqs : List NodeRequest) :
    n.Status ≤ (serveNode Ready Running n reqs).1.Status ∧
    (∃ k, (serveNode Ready Running n reqs).1.bootstrapCalls
      = n.bootstrapCalls ++ List.replicate k Ready) ∧
    (∀ bootErr, (handleBootstrap Ready Running n bootErr).2.code = 200 →
      n.Status = Ready ∧ bootErr = none ∧
      (handleBootstrap Ready Running n bootErr).1.Status = Running) ∧
    (n.Status = Running →
      (serveNode Ready Running n reqs).1.Status = Running ∧
      (serveNode Ready Running n reqs).1.bootstrapCalls = n.bootstrapCalls ∧
      (serveNode Ready Running n reqs).2 = reqs.map alreadyRunningResponse ∧
      ∀ r ∈ (serveNode Ready Running n reqs).2, r.code = 400) := by
  refine ⟨?_, ?_, ?_, ?_⟩
  · induction reqs generalizing n with
    | nil => exact le_refl _
    | cons r rs ih =>
      exact le_trans (handleNodeRequest_step Ready Running hlt n r).1 (ih _)
  · induction reqs generalizing n with
    | nil => exact ⟨0, by simp [serveNode]⟩
    | cons r rs ih =>
      obtain ⟨k1, h1⟩ := (handleNodeRequest_step Ready Running hlt n r).2
      obtain ⟨k2, h2⟩ := ih (handleNodeRequest Ready Running n r).1
      refine ⟨k1 + k2, ?_⟩
      simp only [serveNode, h2, h1, List.append_assoc, List.replicate_add]
  · intro bootErr h
    by_cases h1 : n.Status = Ready
    · simp only [handleBootstrap, if_neg (not_not.2 h1)] at h ⊢
      cases bootErr with
      | some e => simp at h
      | none => exact ⟨h1, rfl, rfl⟩
    · simp only [handleBootstrap, if_pos (show n.Status ≠ Ready from h1)] at h
      simp at h
  · intro hn
    have key : ∀ (rs : List NodeRequest) (m : Node), m.Status = Running →
        serveNode Ready Running m rs = (m, rs.map alreadyRunningResponse) := by
      intro rs
      induction rs with
      | nil => intro m _; rfl
      | cons r rs ih =>
        intro m hm
        simp only [serveNode, handleNodeRequest_running Ready Running hlt m r hm, ih m hm,
          List.map_cons]
    rw [key reqs n hn]
    refine ⟨hn, rfl, rfl, ?_⟩
    intro r hr
    obtain ⟨q, _, rfl⟩ := List.mem_map.1 hr
    cases q <;> rfl

theorem bootstrap_only_once_witness :
    (serveNode 1 2 { Status := 0 }
      [.bootstrap none, .setup none "10.0.0.5" true none, .bootstrap (some "no quorum"),
        .bootstrap none, .bootstrap none, .setup (some "EOF") "10.0.0.6" true none]).1
      = { Status := 2, AdvertiseAddr := some "10.0.0.5", bootstrapCalls := [1, 1] } ∧
    (serveNode 1 2 { Status := 0 }
      [.bootstrap none, .setup none "10.0.0.5" true none, .bootstrap (some "no quorum"),
        .bootstrap none, .bootstrap none, .setup (some "EOF") "10.0.0.6" true none]).2.map Response.code
      = [400, 200, 500, 200, 400, 400] ∧
    ((0 : Status) ≤ (serveNode 1 2 { Status := 0 }
      [.bootstrap none, .setup none "10.0.0.5" true none, .bootstrap (some "no quorum"),
        .bootstrap none, .bootstrap none, .setup (some "EOF") "10.0.0.6" true none]).1.Status) :=
  ⟨by decide, by decide,
   (bootstrap_only_once 1 2 (by decide) { Status := 0 }
      [.bootstrap none, .setup none "10.0.0.5" true none, .bootstrap (some "no quorum"),
        .bootstrap none, .bootstrap none, .setup (some "EOF") "10.0.0.6" true none]).1⟩

/-! ## Properties of the leader-only routes -/

theorem runHandlers_done (fuel : Nat) (handlers : List HandlerFunc) (c : Context)
    (h : ¬ (0 ≤ c.index ∧ c.index < handlers.length)) :
    runHandlers fuel handlers c = c := by
  cases fuel with
  | zero => rfl
  | succ fuel => simp only [runHandlers, if_neg h]

theorem runHandlers_step (fuel : Nat) (handlers : List HandlerFunc) (c : Context)
    (h : HandlerFunc) (i : Nat) (hidx : c.index = (i : Int))
    (hget : handlers.get? i = some h) :
    runHandlers (fuel + 1) handlers c =
      runHandlers fuel handlers (h (fun c' => runHandlers fuel handlers c'.incr) c).incr := by
  have hlen : i < handlers.length := by
    rcases Nat.lt_or_ge i handlers.length with hl | hl
    · exact hl
    · rw [List.get?_eq_none.2 hl] at hget; cases hget
  have hi : 0 ≤ c.index ∧ c.index < handlers.length := by
    rw [hidx]; exact ⟨Int.ofNat_nonneg i, Int.ofNat_lt.2 hlen⟩
  have ht : c.index.toNat = i := by rw [hidx]; rfl
  simp only [runHandlers, if_pos hi, ht, hget]

theorem incr_index (c : Context) : c.incr.index = c.index + 1 := rfl

theorem string_index (c : Context) (code : Nat) (text : String) :
    (c.String code text).index = c.index := by
  unfold Context.String; split <;> rfl

theorem LeaderRoute.handler_next (route : LeaderRoute) (next : Context → Context)
    (c : Context) : route.handler next c = route.handler (fun c => c) c := by
  cases route <;> rfl

theorem abortWithStatus_index (c : Context) (code : Nat) :
    (c.AbortWithStatus code).index = abortIndex := by
  unfold Context.AbortWithStatus; split <;> rfl

theorem bind_index (c : Context) (bindErr : GoError) :
    (c.Bind bindErr).index = c.index ∨ (c.Bind bindErr).index = abortIndex := by
  cases bindErr with
  | none => exact Or.inl rfl
  | some e => exact Or.inr (abortWithStatus_index c 400)

theorem handleSignup_index (bindErr : GoError) (generated : Except GenerateError User)
    (next : Context → Context) (c : Context) :
    (handleSignup bindErr generated next c).index = c.index ∨
      (handleSignup bindErr generated next c).index = abortIndex := by
  have hb := bind_index { c with entered := c.entered ++ ["handleSignup"] } bindErr
  rcases generated with (_ | _ | _ | msg) | u
  · simp only [handleSignup, string_index]; exact hb
  · simp only [handleSignup, string_index]; exact hb
  · simp only [handleSignup, string_index]; exact hb
  · exact Or.inr (abortWithStatus_index _ 400)
  · simp only [handleSignup]
    split <;> simp only [string_index] <;> exact hb

theorem LeaderRoute.handler_index (route : LeaderRoute) (next : Context → Context)
    (c : Context) :
    (route.handler next c).index = c.index ∨ (route.handler next c).index = abortIndex := by
  cases route with
  | signup bindErr generated => exact handleSignup_index bindErr generated next c
  | removeUser id foundAt =>
    left
    simp only [LeaderRoute.handler, handleRemoveUser]
    split
    · simp [string_index]
    · split <;> simp [string_index]

theorem serveLeaderRoute_not_leader (fuel : Nat) (role : RaftState) (route : LeaderRoute)
    (s : Store) (hrole : role ≠ RaftState.Leader) :
    serveLeaderRoute (fuel + 3) role route s =
      ((({ store := s, index := -1 } : Context).incr.incr.String 500
        "This node is not the leader of the cluster, and leader forwarding is not yet implemented.").Abort).incr.incr := by
  have hB : runHandlers (fuel + 2) (leaderChain role route)
        ({ store := s, index := -1 } : Context).incr.incr =
      ((({ store := s, index := -1 } : Context).incr.incr.String 500
        "This node is not the leader of the cluster, and leader forwarding is not yet implemented.").Abort).incr := by
    rw [runHandlers_step (fuel + 1) (leaderChain role route) _ (requireLeader role) 1 rfl rfl]
    simp only [requireLeader, if_pos hrole]
    rw [runHandlers_done]
    simp [incr_index, Context.Abort, abortIndex, leaderChain]
  unfold serveLeaderRoute
  rw [runHandlers_step (fuel + 2) (leaderChain role route) _ simpleLogger 0 rfl rfl]
  simp only [simpleLogger]
  rw [hB, runHandlers_done]
  simp [incr_index, Context.Abort, abortIndex, leaderChain]

theorem serveLeaderRoute_leader (fuel : Nat) (route : LeaderRoute) (s : Store) :
    serveLeaderRoute (fuel + 3) RaftState.Leader route s =
      (route.handler (fun c => c)
        ({ store := s, index := -1 } : Context).incr.incr.incr).incr.incr.incr := by
  have hi := LeaderRoute.handler_index route (fun c => c)
    ({ store := s, index := -1 } : Context).incr.incr.incr
  have h2 : (({ store := s, index := -1 } : Context).incr.incr.incr).index = 2 := rfl
  rw [h2] at hi
  have hA : runHandlers (fuel + 1) (leaderChain RaftState.Leader route)
        ({ store := s, index := -1 } : Context).incr.incr.incr =
      (route.handler (fun c => c)
        ({ store := s, index := -1 } : Context).incr.incr.incr).incr := by
    rw [runHandlers_step fuel (leaderChain RaftState.Leader route) _ route.handler 2 rfl rfl,
      LeaderRoute.handler_next, runHandlers_done]
    rcases hi with hi | hi <;> simp [incr_index, hi, abortIndex, leaderChain]
  have hB : runHandlers (fuel + 2) (leaderChain RaftState.Leader route)
        ({ store := s, index := -1 } : Context).incr.incr =
      (route.handler (fun c => c)
        ({ store := s, index := -1 } : Context).incr.incr.incr).incr.incr := by
    rw [runHandlers_step (fuel + 1) (leaderChain RaftState.Leader route) _
      (requireLeader RaftState.Leader) 1 rfl rfl]
    simp only [requireLeader, ne_eq, not_true_eq_false, if_false]
    rw [hA, runHandlers_done]
    rcases hi with hi | hi <;> simp [incr_index, hi, abortIndex, leaderChain]
  unfold serveLeaderRoute
  rw [runHandlers_step (fuel + 2) (leaderChain RaftState.Leader route) _ simpleLogger 0 rfl rfl]
  simp only [simpleLogger]
  rw [hB, runHandlers_done]
  rcases hi with hi | hi <;> simp [incr_index, hi, abortIndex, leaderChain]

theorem string_fields (c : Context) (code : Nat) (text : String) :
    (c.String code text).store = c.store ∧ (c.String code text).entered = c.entered ∧
    (c.written = false → (c.String code text).code = code) := by
  unfold Context.String
  split
  · rename_i h; exact ⟨rfl, rfl, fun h' => by rw [h'] at h; cases h⟩
  · exact ⟨rfl, rfl, fun _ => rfl⟩

theorem abortWithStatus_fields (c : Context) (code : Nat) :
    (c.AbortWithStatus code).store = c.store ∧ (c.AbortWithStatus code).entered = c.entered ∧
    (c.written = false → (c.AbortWithStatus code).code = code) := by
  unfold Context.AbortWithStatus
  split
  · rename_i h; exact ⟨rfl, rfl, fun h' => by rw [h'] at h; cases h⟩
  · exact ⟨rfl, rfl, fun _ => rfl⟩

theorem string_code_written (c : Context) (code : Nat) (text : String)
    (h : c.written = true) : (c.String code text).code = c.code := by
  simp [Context.String, h]

theorem abortWithStatus_code_written (c : Context) (code : Nat) (h : c.written = true) :
    (c.AbortWithStatus code).code = c.code := by
  simp [Context.AbortWithStatus, Context.Abort, h]

theorem bind_fields (c : Context) (bindErr : GoError) :
    (c.Bind bindErr).store = c.store ∧ (c.Bind bindErr).entered = c.entered := by
  cases bindErr with
  | none => exact ⟨rfl, rfl⟩
  | some e => exact ⟨(abortWithStatus_fields c 400).1, (abortWithStatus_fields c 400).2.1⟩

theorem bind_failed (c : Context) (msg : String) (h : c.written = false) :
    (c.Bind (some msg)).written = true ∧ (c.Bind (some msg)).code = 400 := by
  simp [Context.Bind, Context.AbortWithStatus, Context.Abort, h]

theorem handleSignup_entered (bindErr : GoError) (generated : Except GenerateError User)
    (next : Context → Context) (c : Context) :
    (handleSignup bindErr generated next c).entered = c.entered ++ ["handleSignup"] := by
  have hb := (bind_fields { c with entered := c.entered ++ ["handleSignup"] } bindErr).2
  rcases generated with (_ | _ | _ | msg) | u
  · simp only [handleSignup, (string_fields _ _ _).2.1]; exact hb
  · simp only [handleSignup, (string_fields _ _ _).2.1]; exact hb
  · simp only [handleSignup, (string_fields _ _ _).2.1]; exact hb
  · simp only [handleSignup, (abortWithStatus_fields _ _).2.1]; exact hb
  · simp only [handleSignup]
    split <;> simp only [(string_fields _ _ _).2.1] <;> exact hb

theorem LeaderRoute.handler_entered (route : LeaderRoute) (next : Context → Context)
    (c : Context) : (route.handler next c).entered = c.entered ++ [route.name] := by
  cases route with
  | signup bindErr generated => exact handleSignup_entered bindErr generated next c
  | removeUser id foundAt =>
    simp only [LeaderRoute.handler, LeaderRoute.name, handleRemoveUser]
    split
    · simp [string_fields]
    · split <;> simp [string_fields]

theorem handleSignup_error (bindErr : GoError) (e : GenerateError)
    (next : Context → Context) (c : Context) :
    (handleSignup bindErr (.error e) next c).store = c.store ∧
    (c.written = false →
      (handleSignup bindErr (.error e) next c).code = afterBind bindErr (signupErrorCode e)) := by
  have hs := (bind_fields { c with entered := c.entered ++ ["handleSignup"] } bindErr).1
  constructor
  · cases e with
    | ErrEmailTaken => simp only [handleSignup, (string_fields _ _ _).1]; exact hs
    | ErrUsernameTaken => simp only [handleSignup, (string_fields _ _ _).1]; exact hs
    | ErrMissingFields => simp only [handleSignup, (string_fields _ _ _).1]; exact hs
    | other msg => simp only [handleSignup, (abortWithStatus_fields _ _).1]; exact hs
  · intro hw
    cases bindErr with
    | none =>
      have hw' : ({ c with entered := c.entered ++ ["handleSignup"] }.Bind none).written
          = false := hw
      cases e with
      | ErrEmailTaken => exact (string_fields _ _ _).2.2 hw'
      | ErrUsernameTaken => exact (string_fields _ _ _).2.2 hw'
      | ErrMissingFields => exact (string_fields _ _ _).2.2 hw'
      | other msg => exact (abortWithStatus_fields _ _).2.2 hw'
    | some m =>
      have hf := bind_failed { c with entered := c.entered ++ ["handleSignup"] } m hw
      cases e with
      | ErrEmailTaken =>
        simp only [handleSignup, afterBind, string_code_written _ _ _ hf.1]; exact hf.2
      | ErrUsernameTaken =>
        simp only [handleSignup, afterBind, string_code_written _ _ _ hf.1]; exact hf.2
      | ErrMissingFields =>
        simp only [handleSignup, afterBind, string_code_written _ _ _ hf.1]; exact hf.2
      | other msg =>
        simp only [handleSignup, afterBind, abortWithStatus_code_written _ _ hf.1]; exact hf.2

theorem handleSignup_ok (bindErr : GoError) (u : User) (next : Context → Context)
    (c : Context) :
    (handleSignup bindErr (.ok u) next c).store.submitted
      = c.store.submitted ++ [{ Op := "User.New", User := u }] := by
  have hs := (bind_fields { c with entered := c.entered ++ ["handleSignup"] } bindErr).1
  simp only [handleSignup, command.Apply]
  split <;> rename_i h <;> simp only [Prod.mk.injEq] at h <;>
    obtain ⟨_, h2⟩ := h <;> subst h2 <;> simp [string_fields, hs]

/-- C8: on the routes `POST /signup` and `DELETE /user/:id`, when the consensus
role of the node is not `Leader` the leader check answers with status 500 and
aborts the chain: the route handler does not run and the store receives no
command; the route handler runs exactly when the role is `Leader`. -/
theorem requireLeader_guards_routes (fuel : Nat) (role : RaftState) (route : LeaderRoute)
    (s : Store) :
    (role ≠ RaftState.Leader →
      (serveLeaderRoute (fuel + 3) role route s).code = 500 ∧
      (serveLeaderRoute (fuel + 3) role route s).index > abortIndex ∧
      (serveLeaderRoute (fuel + 3) role route s).entered = [] ∧
      (serveLeaderRoute (fuel + 3) role route s).store = s) ∧
    ((serveLeaderRoute (fuel + 3) role route s).entered ≠ [] ↔ role = RaftState.Leader) ∧
    (role = RaftState.Leader →
      (serveLeaderRoute (fuel + 3) role route s).entered = [route.name]) := by
  have hnot : role ≠ RaftState.Leader →
      (serveLeaderRoute (fuel + 3) role route s).code = 500 ∧
      (serveLeaderRoute (fuel + 3) role route s).index > abortIndex ∧
      (serveLeaderRoute (fuel + 3) role route s).entered = [] ∧
      (serveLeaderRoute (fuel + 3) role route s).store = s := by
    intro hrole
    rw [serveLeaderRoute_not_leader fuel role route s hrole]
    refine ⟨rfl, ?_, rfl, rfl⟩
    show abortIndex < abortIndex + 1 + 1
    unfold abortIndex
    decide
  have hlead : role = RaftState.Leader →
      (serveLeaderRoute (fuel + 3) role route s).entered = [route.name] := by
    intro hrole
    subst hrole
    rw [serveLeaderRoute_leader]
    exact LeaderRoute.handler_entered route _ _
  refine ⟨hnot, ⟨?_, ?_⟩, hlead⟩
  · intro h
    by_contra hrole
    exact h (hnot hrole).2.2.1
  · intro hrole
    rw [hlead hrole]
    simp

theorem requireLeader_guards_routes_witness :
    (serveLeaderRoute 3 RaftState.Follower
        (.signup none (.ok { ID := "u1", Name := "Ann", Username := "ann", Email := "ann@x.com" }))
        calmStore).code = 500 ∧
    (serveLeaderRoute 3 RaftState.Follower
        (.signup none (.ok { ID := "u1", Name := "Ann", Username := "ann", Email := "ann@x.com" }))
        calmStore).index > abortIndex ∧
    (serveLeaderRoute 3 RaftState.Follower
        (.signup none (.ok { ID := "u1", Name := "Ann", Username := "ann", Email := "ann@x.com" }))
        calmStore).entered = [] ∧
    (serveLeaderRoute 3 RaftState.Follower
        (.signup none (.ok { ID := "u1", Name := "Ann", Username := "ann", Email := "ann@x.com" }))
        calmStore).store = calmStore :=
  (requireLeader_guards_routes 0 RaftState.Follower
    (.signup none (.ok { ID := "u1", Name := "Ann", Username := "ann", Email := "ann@x.com" }))
    calmStore).1 (by decide)

/-- C9 (as the code has it): a signup request for which `Users.Generate`
reports an error hands no command to the store and is answered with an error
status: when `c.Bind` bound the body, 409 for `ErrEmailTaken` and
`ErrUsernameTaken` and 400 otherwise (`ErrMissingFields` included); when
`c.Bind` failed, the 400 that it has already sent. A command is handed over
only when generation succeeded, and it is then the one `User.New` command
carrying the generated user. -/
theorem handleSignup_validates_first (fuel : Nat) (s : Store) (bindErr : GoError)
    (generated : Except GenerateError User) :
    (∀ e, generated = .error e →
      (serveLeaderRoute (fuel + 3) RaftState.Leader (.signup bindErr generated) s).store = s ∧
      (serveLeaderRoute (fuel + 3) RaftState.Leader (.signup bindErr generated) s).code
        = afterBind bindErr (signupErrorCode e)) ∧
    (∀ u, generated = .ok u →
      (serveLeaderRoute (fuel + 3) RaftState.Leader
          (.signup bindErr generated) s).store.submitted
        = s.submitted ++ [{ Op := "User.New", User := u }]) ∧
    ((serveLeaderRoute (fuel + 3) RaftState.Leader
          (.signup bindErr generated) s).store.submitted
        ≠ s.submitted → ∃ u, generated = .ok u) := by
  have herr : ∀ e, generated = .error e →
      (serveLeaderRoute (fuel + 3) RaftState.Leader (.signup bindErr generated) s).store = s ∧
      (serveLeaderRoute (fuel + 3) RaftState.Leader (.signup bindErr generated) s).code
        = afterBind bindErr (signupErrorCode e) := by
    intro e he
    subst he
    rw [serveLeaderRoute_leader]
    have h := handleSignup_error bindErr e (fun c => c)
      ({ store := s, index := -1 } : Context).incr.incr.incr
    exact ⟨h.1, h.2 rfl⟩
  refine ⟨herr, ?_, ?_⟩
  · intro u hu
    subst hu
    rw [serveLeaderRoute_leader]
    exact handleSignup_ok bindErr u _ _
  · intro h
    cases generated with
    | error e => exact absurd (by rw [(herr e rfl).1]) h
    | ok u => exact ⟨u, rfl⟩

theorem handleSignup_validates_first_witness :
    (serveLeaderRoute 3 RaftState.Leader (.signup none (.error .ErrUsernameTaken))
      calmStore).store = calmStore ∧
    (serveLeaderRoute 3 RaftState.Leader (.signup none (.error .ErrUsernameTaken))
      calmStore).code = 409 :=
  (handleSignup_validates_first 0 calmStore none (.error .ErrUsernameTaken)).1
    .ErrUsernameTaken rfl

/-- C9 as stated fails: a signup request whose body does not bind (here a
number where the name should be) has been answered with 400 by `c.Bind` when
`Users.Generate` reports the username as taken, and the 409 written afterwards
does not replace it. -/
theorem handleSignup_bind_error_answers_400 :
    (serveLeaderRoute 3 RaftState.Leader
      (.signup (some "json: cannot unmarshal number into Go struct field body.name of type string")
        (.error .ErrUsernameTaken))
      calmStore).code = 400 ∧
    (serveLeaderRoute 3 RaftState.Leader
      (.signup (some "json: cannot unmarshal number into Go struct field body.name of type string")
        (.error .ErrUsernameTaken))
      calmStore).text = "Sorry, that username is already taken." := by
  decide

/-! ## Properties of the git gateway -/

/-- C10, the code at the failing input: the reference `repo/ghost/app` names a
namespace `ghost` that is not found, and no repository has the ID `app`; the
gateway nevertheless grants access, to the repository `r7` of namespace `ns1`
whose name is `app`. -/
theorem AuthFunc_unknown_namespace_grants :
    calmGit.findNamespace "ghost" = none ∧
    (∀ r ∈ [({ ID := "r7", Name := "app", NamespaceID := "ns1" } : Repository)], r.ID ≠ "app") ∧
    AuthFunc calmGit [{ ID := "r7", Name := "app", NamespaceID := "ns1" }]
        { Username := "ann", Password := "pw" } "repo/ghost/app"
      = (true, none, "/var/orbit/repositories/r7") := by
  decide

/-! ## Properties of the edge generator -/

theorem find?_ID (certID : String) (certs : List Certificate) (c : Certificate)
    (h : certs.find? (fun c => c.ID == certID) = some c) : c.ID = certID := by
  have := List.find?_some h
  simpa using this

/-- C11: `ensureCertificate certID certs` is true exactly when `certID` is not
empty and the first certificate of `certs` with that ID has a non-empty full
chain and a non-empty private key; it is false for the empty ID, when no
certificate has the ID, and when the full chain or the private key of that
first certificate is empty. -/
theorem ensureCertificate_iff (certID : String) (certs : List Certificate) :
    (ensureCertificate certID certs = true ↔
      certID ≠ "" ∧ ∃ c, certs.find? (fun c => c.ID == certID) = some c ∧
        c.FullChain ≠ [] ∧ c.PrivateKey ≠ []) ∧
    (certID = "" → ensureCertificate certID certs = false) ∧
    ((∀ c ∈ certs, c.ID ≠ certID) → ensureCertificate certID certs = false) ∧
    (∀ c, certs.find? (fun c => c.ID == certID) = some c →
      (c.FullChain = [] ∨ c.PrivateKey = []) → ensureCertificate certID certs = false) := by
  have hiff : ensureCertificate certID certs = true ↔
      certID ≠ "" ∧ ∃ c, certs.find? (fun c => c.ID == certID) = some c ∧
        c.FullChain ≠ [] ∧ c.PrivateKey ≠ [] := by
    unfold ensureCertificate
    by_cases h0 : certID = ""
    · simp [h0]
    · cases hf : certs.find? (fun c => c.ID == certID) with
      | none => simp [h0]
      | some c =>
        have hid : c.ID = certID := find?_ID certID certs c hf
        have hne : c.ID ≠ "" := by rw [hid]; exact h0
        simp [h0, hne, not_or]
  refine ⟨hiff, ?_, ?_, ?_⟩
  · intro h0
    rw [Bool.eq_false_iff]
    exact fun h => (hiff.1 h).1 h0
  · intro hall
    rw [Bool.eq_false_iff]
    intro h
    obtain ⟨_, c, hc, _⟩ := hiff.1 h
    exact hall c (List.mem_of_find?_eq_some hc) (find?_ID certID certs c hc)
  · intro c hc hempty
    rw [Bool.eq_false_iff]
    intro h
    obtain ⟨_, c', hc', h1, h2⟩ := hiff.1 h
    rw [hc] at hc'
    cases hc'
    rcases hempty with he | he
    · exact h1 he
    · exact h2 he

theorem ensureCertificate_iff_witness :
    ensureCertificate "c2"
      [{ ID := "c1", FullChain := [45], PrivateKey := [45] },
       { ID := "c2", FullChain := [], PrivateKey := [45] },
       { ID := "c2", FullChain := [45], PrivateKey := [45] }] = false :=
  (ensureCertificate_iff "c2"
      [{ ID := "c1", FullChain := [45], PrivateKey := [45] },
       { ID := "c2", FullChain := [], PrivateKey := [45] },
       { ID := "c2", FullChain := [45], PrivateKey := [45] }]).2.2.2
    { ID := "c2", FullChain := [], PrivateKey := [45] } (by decide) (Or.inl rfl)

/-- C13, the code at the failing input: two certificates carry the ID `c1`, the
first with a full chain and a key, the second with neither. The router's app
gets HTTPS with the files `c1.crt` and `c1.key`, both written by the loop, and
what was written last to each of them is empty. -/
theorem edgeMain_duplicate_certificate_enables_https :
    ∃ run,
      edgeMain plainNginx (fun _ _ => none)
          [{ Domain := "x.io", AppID := "web", CertificateID := "c1" }]
          [{ ID := "c1", FullChain := [45, 45], PrivateKey := [45] },
           { ID := "c1", FullChain := [], PrivateKey := [] }] = .ok run ∧
      run.apps = [{ Domain := "x.io", ProxyTo := "web", HTTPS := true,
                    CertificateFile := "/etc/nginx/certs/c1.crt",
                    CertificateKeyFile := "/etc/nginx/certs/c1.key" }] ∧
      lastWritten run.writes "/etc/nginx/certs/c1.crt" = some (.bytes []) ∧
      lastWritten run.writes "/etc/nginx/certs/c1.key" = some (.bytes []) :=
  ⟨_, rfl, by decide, by decide, by decide⟩

/-! ## Further properties of the git gateway -/

/-- C12, the code at the failing input: the reference `repo/r2` is the ID of
the second repository, but the first repository is named `r2`; the loop takes
the first repository, by its name, and the path is rewritten to the directory
of `r1`. -/
theorem AuthFunc_name_shadows_ID :
    ({ ID := "r2", Name := "lib", NamespaceID := "ns1" } : Repository) ∈
      [({ ID := "r1", Name := "r2", NamespaceID := "ns2" } : Repository),
       { ID := "r2", Name := "lib", NamespaceID := "ns1" }] ∧
    AuthFunc calmGit
        [{ ID := "r1", Name := "r2", NamespaceID := "ns2" },
         { ID := "r2", Name := "lib", NamespaceID := "ns1" }]
        { Username := "ann", Password := "pw" } "repo/r2"
      = (true, none, "/var/orbit/repositories/r1") := by
  decide

/-! ## Termination of `GenerateID` -/

theorem GenerateIDRounds_fst (d : Deployments) (draws : List (List Nat)) :
    (GenerateIDRounds d draws).map Prod.fst = GenerateID d draws := by
  induction draws with
  | nil => rfl
  | cons draw rest ih =>
    simp only [GenerateIDRounds, GenerateID]
    split
    · rw [← ih]; cases GenerateIDRounds d rest <;> rfl
    · rfl

theorem hextable_getD_mem : ∀ i < 16, hextable.getD i '0' ∈ hextable := by decide

theorem hexByte_chars (v : Nat) : ∀ ch ∈ hexByte v, ch ∈ hextable := by
  intro ch hch
  simp only [hexByte, List.mem_cons, List.mem_singleton, List.not_mem_nil, or_false] at hch
  rcases hch with rfl | rfl
  · exact hextable_getD_mem _ (by omega)
  · exact hextable_getD_mem _ (by omega)

theorem EncodeToString_chars (b : List Nat) :
    ∀ ch ∈ (EncodeToString b).data, ch ∈ hextable := by
  intro ch hch
  simp only [EncodeToString, List.mem_flatMap] at hch
  obtain ⟨v, _, hv⟩ := hch
  exact hexByte_chars v ch hv

theorem EncodeToString_length (b : List Nat) :
    (EncodeToString b).length = 2 * b.length := by
  show (b.flatMap hexByte).length = 2 * b.length
  induction b with
  | nil => rfl
  | cons v b ih =>
    simp only [List.flatMap_cons, List.length_append, ih, List.length_cons]
    simp [hexByte]
    omega

theorem readRandom_length (draw : List Nat) : (readRandom draw).length = 8 := by
  simp [readRandom]

/-- C14: when some draw of the sequence encodes to an ID that no deployment
carries, `GenerateID` returns: the sequence splits into colliding draws, the
first draw that does not collide, and a rest that is never read; the result is
the hex encoding of that first draw, 16 characters long and made of the
characters `0`-`9` and `a`-`f`, and `continue search` was executed exactly once
for each of the colliding draws before it. -/
theorem GenerateID_returns_first_fresh (d : Deployments) (draws : List (List Nat))
    (h : ∃ draw ∈ draws, idInUse d (EncodeToString (readRandom draw)) = false) :
    ∃ pre b rest, draws = pre ++ b :: rest ∧
      (∀ x ∈ pre, idInUse d (EncodeToString (readRandom x)) = true) ∧
      idInUse d (EncodeToString (readRandom b)) = false ∧
      GenerateID d draws = some (EncodeToString (readRandom b)) ∧
      GenerateIDRounds d draws = some (EncodeToString (readRandom b), pre.length) ∧
      (∀ rest', GenerateID d (pre ++ b :: rest') = some (EncodeToString (readRandom b))) ∧
      (EncodeToString (readRandom b)).length = 16 ∧
      ∀ ch ∈ (EncodeToString (readRandom b)).data, ch ∈ hextable := by
  induction draws with
  | nil =>
    obtain ⟨x, hx, _⟩ := h
    cases hx
  | cons draw rest ih =>
    by_cases hc : idInUse d (EncodeToString (readRandom draw)) = true
    · have h' : ∃ x ∈ rest, idInUse d (EncodeToString (readRandom x)) = false := by
        obtain ⟨x, hx, hfree⟩ := h
        rcases List.mem_cons.1 hx with rfl | hx'
        · rw [hfree] at hc; cases hc
        · exact ⟨x, hx', hfree⟩
      obtain ⟨pre, b, rest', h1, h2, h3, h4, h5, h6, h7, h8⟩ := ih h'
      refine ⟨draw :: pre, b, rest', by rw [h1]; rfl, ?_, h3, ?_, ?_, ?_, h7, h8⟩
      · intro x hx
        rcases List.mem_cons.1 hx with rfl | hx'
        · exact hc
        · exact h2 x hx'
      · simp only [GenerateID, hc, if_true, h4]
      · simp only [GenerateIDRounds, hc, if_true, h5, Option.map_some', List.length_cons]
      · intro r
        simp only [List.cons_append, GenerateID, hc, if_true]
        exact h6 r
    · have hfree : idInUse d (EncodeToString (readRandom draw)) = false := by
        simpa using hc
      refine ⟨[], draw, rest, rfl, by simp, hfree, ?_, ?_, ?_, ?_, ?_⟩
      · simp [GenerateID, hfree]
      · simp [GenerateIDRounds, hfree]
      · intro r; simp [GenerateID, hfree]
      · rw [EncodeToString_length, readRandom_length]
      · exact EncodeToString_chars _

theorem GenerateID_returns_first_fresh_witness :
    GenerateIDRounds [{ ID := "0000000000000000" }, { ID := "0102030405060708" }]
        [[], [1, 2, 3, 4, 5, 6, 7, 8], [171, 205, 239, 1, 35, 69, 103, 137], [9]]
      = some ("abcdef0123456789", 2) ∧
    ∃ pre b rest,
      ([[], [1, 2, 3, 4, 5, 6, 7, 8], [171, 205, 239, 1, 35, 69, 103, 137], [9]] : List (List Nat))
        = pre ++ b :: rest ∧
      (∀ x ∈ pre, idInUse [{ ID := "0000000000000000" }, { ID := "0102030405060708" }]
        (EncodeToString (readRandom x)) = true) ∧
      idInUse [{ ID := "0000000000000000" }, { ID := "0102030405060708" }]
        (EncodeToString (readRandom b)) = false ∧
      GenerateID [{ ID := "0000000000000000" }, { ID := "0102030405060708" }]
          [[], [1, 2, 3, 4, 5, 6, 7, 8], [171, 205, 239, 1, 35, 69, 103, 137], [9]]
        = some (EncodeToString (readRandom b)) ∧
      GenerateIDRounds [{ ID := "0000000000000000" }, { ID := "0102030405060708" }]
          [[], [1, 2, 3, 4, 5, 6, 7, 8], [171, 205, 239, 1, 35, 69, 103, 137], [9]]
        = some (EncodeToString (readRandom b), pre.length) ∧
      (∀ rest', GenerateID [{ ID := "0000000000000000" }, { ID := "0102030405060708" }]
          (pre ++ b :: rest') = some (EncodeToString (readRandom b))) ∧
      (EncodeToString (readRandom b)).length = 16 ∧
      ∀ ch ∈ (EncodeToString (readRandom b)).data, ch ∈ hextable :=
  ⟨by decide,
   GenerateID_returns_first_fresh
    [{ ID := "0000000000000000" }, { ID := "0102030405060708" }]
    [[], [1, 2, 3, 4, 5, 6, 7, 8], [171, 205, 239, 1, 35, 69, 103, 137], [9]]
    ⟨[171, 205, 239, 1, 35, 69, 103, 137], by decide, by decide⟩⟩

end Orbit
